import Mathlib

/-!
Verification of the one_person_dnd turn engine against its specification.

Shallow embedding of the Python sources:
* `src/one_person_dnd/engine/parser.py` (strict delimiter parsing),
* `src/one_person_dnd/engine/guardrails.py` (state-delta validation),
* `src/one_person_dnd/web/routes/character.py` (deep merge, change apply/reject),
* `src/one_person_dnd/engine/orchestrator.py` (summary rollup, story blocks),
* `src/one_person_dnd/db/repos/{summaries,story_journal,state_change_requests}.py`
  (SQL queries modelled as list operations on an explicit database state).

Python strings are modelled as Lean `String` (a list of unicode code points,
matching Python's code-point semantics for `len`, slicing and `strip`).
Whitespace for `str.strip()` is modelled as the ASCII whitespace characters;
the texts analysed here are code-point sequences where this coincides with
Python's behaviour on the characters involved.
-/

/- ===================== Python string primitives ===================== -/

/-- Python whitespace for `str.strip()` with no arguments (ASCII subset). -/
def pyIsSpace (c : Char) : Bool :=
  c = ' ' || c = '\t' || c = '\n' || c = '\r' || c = '\x0b' || c = '\x0c'

/-- Drop characters satisfying `p` from the right end of a list. -/
def dropWhileRight (p : Char → Bool) (l : List Char) : List Char :=
  (l.reverse.dropWhile p).reverse

/-- Python `s.lstrip(chars)` at the character-list level. -/
def lstripL (cs : List Char) (l : List Char) : List Char :=
  l.dropWhile (fun c => cs.contains c)

/-- Python `s.rstrip(chars)` at the character-list level. -/
def rstripL (cs : List Char) (l : List Char) : List Char :=
  dropWhileRight (fun c => cs.contains c) l

/-- Python `s.strip()` (no argument) at the character-list level. -/
def stripWs (l : List Char) : List Char :=
  dropWhileRight pyIsSpace (l.dropWhile pyIsSpace)

/-- Python `s.lstrip(chars)`: drop from the left all characters in `cs`. -/
def pyLstrip (cs : List Char) (s : String) : String :=
  String.mk (lstripL cs s.toList)

/-- Python `s.rstrip(chars)`: drop from the right all characters in `cs`. -/
def pyRstrip (cs : List Char) (s : String) : String :=
  String.mk (rstripL cs s.toList)

/-- Python `s.strip()` (no argument): strip whitespace from both ends. -/
def pyStrip (s : String) : String :=
  String.mk (stripWs s.toList)

/-- Split a character list at newline characters (pieces keep no separator). -/
def splitNl : List Char → List (List Char)
  | [] => [[]]
  | c :: cs =>
    let rest := splitNl cs
    if c = '\n' then [] :: rest
    else
      match rest with
      | [] => [[c]]
      | piece :: more => (c :: piece) :: more

/-- Python `s.splitlines()` restricted to the `'\n'` separator: the pieces of
`s` between newlines, with no trailing empty piece for a trailing newline and
`[]` for the empty string. -/
def pySplitlines (s : String) : List String :=
  if s = "" then []
  else
    let parts := (splitNl s.toList).map String.mk
    if parts.getLast? = some "" then parts.dropLast else parts

/-- Python `"\n".join(lines)`. -/
def joinNl (lines : List String) : String :=
  String.intercalate "\n" lines

/-- Python `"\n\n".join(lines)`. -/
def joinBlank (lines : List String) : String :=
  String.intercalate "\n\n" lines

/-- The ten ASCII digit characters (`"0123456789"`). -/
def asciiDigits : List Char :=
  ['0', '1', '2', '3', '4', '5', '6', '7', '8', '9']

/-- ASCII decimal digit test (`s2[0].isdigit()` on ASCII input). -/
def pyIsDigit (c : Char) : Bool :=
  asciiDigits.contains c

/- ===================== Response parser (engine/parser.py) ===================== -/

/-- The six buffers of `_parse_by_delimiters`. -/
inductive SecField where
  | narration
  | choices
  | dmNotes
  | memory
  | stateDelta
  | threadUpdates
deriving DecidableEq, Repr

/-- The `keys` dictionary of `_parse_by_delimiters` (parser.py lines 29-36):
reserved section token → target buffer. -/
def keyOf (s : String) : Option SecField :=
  if s = "===NARRATION===" then some SecField.narration
  else if s = "===CHOICES===" then some SecField.choices
  else if s = "===DM_NOTES===" then some SecField.dmNotes
  else if s = "===MEMORY===" then some SecField.memory
  else if s = "===STATE_DELTA===" then some SecField.stateDelta
  else if s = "===THREAD_UPDATES===" then some SecField.threadUpdates
  else none

/-- The structured parse result (`DMStructuredResponse`, parser.py lines 6-13). -/
structure DMStructuredResponse where
  narration : String
  choices : List String
  dm_notes : String
  memory_suggestions : String
  state_delta_json : String
  thread_updates_json : String
deriving DecidableEq, Repr

/-- The six line buffers `buf` of `_parse_by_delimiters`. -/
structure ParseBuf where
  narration : List String
  choices : List String
  dmNotes : List String
  memory : List String
  stateDelta : List String
  threadUpdates : List String
deriving DecidableEq, Repr

def ParseBuf.empty : ParseBuf := ⟨[], [], [], [], [], []⟩

def ParseBuf.get (b : ParseBuf) : SecField → List String
  | SecField.narration => b.narration
  | SecField.choices => b.choices
  | SecField.dmNotes => b.dmNotes
  | SecField.memory => b.memory
  | SecField.stateDelta => b.stateDelta
  | SecField.threadUpdates => b.threadUpdates

def ParseBuf.push (b : ParseBuf) (f : SecField) (l : String) : ParseBuf :=
  match f with
  | SecField.narration => { b with narration := b.narration ++ [l] }
  | SecField.choices => { b with choices := b.choices ++ [l] }
  | SecField.dmNotes => { b with dmNotes := b.dmNotes ++ [l] }
  | SecField.memory => { b with memory := b.memory ++ [l] }
  | SecField.stateDelta => { b with stateDelta := b.stateDelta ++ [l] }
  | SecField.threadUpdates => { b with threadUpdates := b.threadUpdates ++ [l] }

/-- The `for raw in lines` loop of `_parse_by_delimiters` (parser.py lines
41-50): `cur` is `current`, `found` is `found_any`. -/
def scanLines : List String → Option SecField → ParseBuf → Bool → ParseBuf × Bool
  | [], _, buf, found => (buf, found)
  | raw :: rest, cur, buf, found =>
    let line := pyRstrip ['\n'] raw
    match keyOf (pyStrip line) with
    | some f => scanLines rest (some f) buf true
    | none =>
      match cur with
      | none => scanLines rest cur buf found
      | some f => scanLines rest cur (buf.push f line) found

/-- The body of the choices-block for-loop of `_parse_by_delimiters`
(parser.py lines 62-77), one line at a time on its character list:
`s = line.strip()`; skip empty; strip a leading `-` run then re-strip;
when the text is at least two characters long and starts with a digit,
strip the leading digit run, then leading `.`s, then leading `)`s, then
re-strip (`s2`); fall back to the pre-digit text when that empties it
(`s = s2 or s`); keep the line only if non-empty. -/
def normChoiceLineL (line : List Char) : Option (List Char) :=
  let s := stripWs line
  if s = [] then none
  else
    let s := if s.head? = some '-' then stripWs (lstripL ['-'] s) else s
    let s2 := s
    let s2 :=
      if 2 ≤ s2.length ∧ s2.head?.elim false pyIsDigit = true then
        stripWs (lstripL [')'] (lstripL ['.'] (lstripL asciiDigits s2)))
      else s2
    let s := if s2 = [] then s else s2
    if s = [] then none else some s

/-- One choices line normalized, or dropped (parser.py lines 62-77). -/
def normChoiceLine (line : String) : Option String :=
  (normChoiceLineL line.toList).map String.mk

/-- Parse the joined choices block into the choices list (parser.py lines
62-77). -/
def normalizeChoices (choices_block : String) : List String :=
  (pySplitlines choices_block).filterMap normChoiceLine

/-- `_parse_by_delimiters` on an already-split line list (parser.py lines
27-86). -/
def parseLines (lines : List String) : Option DMStructuredResponse :=
  let sb := scanLines lines none ParseBuf.empty false
  if sb.2 then
    some
      { narration := pyStrip (joinNl sb.1.narration)
        choices := normalizeChoices (pyStrip (joinNl sb.1.choices))
        dm_notes := pyStrip (joinNl sb.1.dmNotes)
        memory_suggestions := pyStrip (joinNl sb.1.memory)
        state_delta_json := pyStrip (joinNl sb.1.stateDelta)
        thread_updates_json := pyStrip (joinNl sb.1.threadUpdates) }
  else none

/-- `_parse_by_delimiters(src)` (parser.py lines 27-86): split into lines,
scan, assemble.  `parse_dm_text` calls this on the stripped input and falls
back to heuristics only when this returns `none`. -/
def parseByDelimiters (t : String) : Option DMStructuredResponse :=
  parseLines (pySplitlines t)

/-- Claim-side section extraction, parameterized by the marker recognizer:
lines before the first recognized marker are discarded, and content between
two markers belongs to the first marker's section (repeated markers append). -/
def sectionLinesBy (recog : String → Option SecField) :
    List String → Option SecField → SecField → List String
  | [], _, _ => []
  | l :: ls, cur, f =>
    match recog l with
    | some g => sectionLinesBy recog ls (some g) f
    | none =>
      (if cur = some f then [l] else []) ++ sectionLinesBy recog ls cur f

/-- Marker recognition as the code does it: the line equals a reserved token
after stripping surrounding whitespace. -/
def recogStrip (l : String) : Option SecField :=
  keyOf (pyStrip l)

/-- Claim-side strict parser, exactly as claim C1 words it: a line is a
section marker exactly when it is equal to a reserved token, case-sensitive,
with no prefix or suffix; each section's content is recovered exactly
(modulo the choice-list normalization rule); absent sections become empty
strings; `none` when no marker is found. -/
def strictSpecParseExact (t : String) : Option DMStructuredResponse :=
  let lines := pySplitlines t
  if lines.all (fun l => (keyOf l).isNone) then none
  else
    some
      { narration := joinNl (sectionLinesBy keyOf lines none SecField.narration)
        choices := normalizeChoices
          (joinNl (sectionLinesBy keyOf lines none SecField.choices))
        dm_notes := joinNl (sectionLinesBy keyOf lines none SecField.dmNotes)
        memory_suggestions := joinNl (sectionLinesBy keyOf lines none SecField.memory)
        state_delta_json := joinNl (sectionLinesBy keyOf lines none SecField.stateDelta)
        thread_updates_json :=
          joinNl (sectionLinesBy keyOf lines none SecField.threadUpdates) }

/-- Claim-side strict parser as amended: a line is a section marker exactly
when it equals a reserved token after stripping surrounding whitespace, and
each section's content is recovered modulo stripping of leading/trailing
whitespace (and the choice-list normalization rule for the choices section). -/
def strictSpecParse (t : String) : Option DMStructuredResponse :=
  let lines := pySplitlines t
  if lines.all (fun l => (recogStrip l).isNone) then none
  else
    some
      { narration :=
          pyStrip (joinNl (sectionLinesBy recogStrip lines none SecField.narration))
        choices := normalizeChoices
          (pyStrip (joinNl (sectionLinesBy recogStrip lines none SecField.choices)))
        dm_notes :=
          pyStrip (joinNl (sectionLinesBy recogStrip lines none SecField.dmNotes))
        memory_suggestions :=
          pyStrip (joinNl (sectionLinesBy recogStrip lines none SecField.memory))
        state_delta_json :=
          pyStrip (joinNl (sectionLinesBy recogStrip lines none SecField.stateDelta))
        thread_updates_json :=
          pyStrip (joinNl (sectionLinesBy recogStrip lines none SecField.threadUpdates)) }

/-- The six reserved section tokens. -/
def reservedTokens : List String :=
  ["===NARRATION===", "===CHOICES===", "===DM_NOTES===", "===MEMORY===",
   "===STATE_DELTA===", "===THREAD_UPDATES==="]

/- ===================== Python values (guardrails.py, character.py) ===================== -/

/-- A Python dict key as seen by `_check`: JSON decoding only ever produces
string keys, but `_check` is written over arbitrary values, so non-string
keys are representable as opaque tags. -/
inductive PyKey where
  | str (s : String)
  | nonstr (tag : String)
deriving DecidableEq, Repr

/-- A Python value as handled by `validate_state_delta_json` and
`_deep_merge`: `none_` is Python `None`, `float` is a float (its numeric
value is never inspected by the code modelled here), and `other` is a value
of any unsupported type, carrying the `type(v).__name__` string. -/
inductive PyVal where
  | none_ : PyVal
  | str : String → PyVal
  | int : Int → PyVal
  | float : PyVal
  | bool : Bool → PyVal
  | list : List PyVal → PyVal
  | dict : List (PyKey × PyVal) → PyVal
  | other : String → PyVal
deriving Repr

/-- `isinstance(obj, dict)`. -/
def PyVal.isDict : PyVal → Bool
  | PyVal.dict _ => true
  | _ => false

/- Error messages of guardrails.py (the f-string parameters made explicit). -/

def msgEmpty : String := "STATE_DELTA 为空"

def msgTooBig (max_chars : Nat) : String :=
  "STATE_DELTA 过大（>" ++ toString max_chars ++ " chars）"

def msgParseFail (e : String) : String :=
  "STATE_DELTA JSON 解析失败：" ++ e

def msgNotObj : String := "STATE_DELTA 必须是 JSON 对象（\x7b\x7d）"

def msgDepth (max_depth : Nat) : String :=
  "STATE_DELTA 嵌套过深（>" ++ toString max_depth ++ "）"

def msgBadKey : String := "STATE_DELTA 的对象 key 必须是字符串"

def msgBadType (tyName : String) : String :=
  "STATE_DELTA 含不支持的类型：" ++ tyName

mutual

/-- The recursive `_check(v, depth)` of guardrails.py (lines 32-47): raise on
depth overflow, accept primitives, recurse into lists and dicts (checking
dict keys are strings), reject unsupported types. -/
def pyCheck (md : Nat) (v : PyVal) (depth : Nat) : Except String Unit :=
  if md < depth then Except.error (msgDepth md)
  else
    match v with
    | PyVal.none_ => Except.ok ()
    | PyVal.str _ => Except.ok ()
    | PyVal.int _ => Except.ok ()
    | PyVal.float => Except.ok ()
    | PyVal.bool _ => Except.ok ()
    | PyVal.list xs => pyCheckList md xs (depth + 1)
    | PyVal.dict kvs => pyCheckDict md kvs (depth + 1)
    | PyVal.other ty => Except.error (msgBadType ty)

/-- The `for it in v` loop over a list inside `_check`. -/
def pyCheckList (md : Nat) (xs : List PyVal) (depth : Nat) : Except String Unit :=
  match xs with
  | [] => Except.ok ()
  | x :: rest =>
    match pyCheck md x depth with
    | Except.error e => Except.error e
    | Except.ok _ => pyCheckList md rest depth

/-- The `for k, it in v.items()` loop over a dict inside `_check`: key must
be a string, then the value is checked. -/
def pyCheckDict (md : Nat) (kvs : List (PyKey × PyVal)) (depth : Nat) :
    Except String Unit :=
  match kvs with
  | [] => Except.ok ()
  | (k, v) :: rest =>
    match k with
    | PyKey.nonstr _ => Except.error msgBadKey
    | PyKey.str _ =>
      match pyCheck md v depth with
      | Except.error e => Except.error e
      | Except.ok _ => pyCheckDict md rest depth

end

/-- `validate_state_delta_json(delta_json_text, max_chars, max_depth)`
(guardrails.py lines 11-50).  The single step this embedding cannot perform
itself is Python's `json.loads`; its outcome on the stripped text is passed
in as `loads` (`Except.error e` models a parse exception with message `e`).
Everything else follows the source line by line: strip, reject empty, reject
oversize, reject parse failure, reject a non-dict top level, then run the
recursive `_check(obj, 1)`. -/
def validate_state_delta_json (delta_json_text : String)
    (loads : Except String PyVal) (max_chars max_depth : Nat) :
    Except String PyVal :=
  let t := pyStrip delta_json_text
  if t = "" then Except.error msgEmpty
  else if max_chars < t.length then Except.error (msgTooBig max_chars)
  else
    match loads with
    | Except.error e => Except.error (msgParseFail e)
    | Except.ok obj =>
      if obj.isDict then
        match pyCheck max_depth obj 1 with
        | Except.error m => Except.error m
        | Except.ok _ => Except.ok obj
      else Except.error msgNotObj

/- Claim-side predicates for the guardrail conditions. -/

mutual

/-- Claim-side: the value contains a mapping key that is not a string. -/
def hasNonStrKey : PyVal → Bool
  | PyVal.list xs => hasNonStrKeyList xs
  | PyVal.dict kvs => hasNonStrKeyDict kvs
  | _ => false

def hasNonStrKeyList : List PyVal → Bool
  | [] => false
  | x :: rest => hasNonStrKey x || hasNonStrKeyList rest

def hasNonStrKeyDict : List (PyKey × PyVal) → Bool
  | [] => false
  | (PyKey.nonstr _, _) :: _ => true
  | (PyKey.str _, v) :: rest => hasNonStrKey v || hasNonStrKeyDict rest

end

mutual

/-- Claim-side: the value contains a value of a type outside
null/string/number/boolean/mapping/sequence. -/
def hasBadType : PyVal → Bool
  | PyVal.other _ => true
  | PyVal.list xs => hasBadTypeList xs
  | PyVal.dict kvs => hasBadTypeDict kvs
  | _ => false

def hasBadTypeList : List PyVal → Bool
  | [] => false
  | x :: rest => hasBadType x || hasBadTypeList rest

def hasBadTypeDict : List (PyKey × PyVal) → Bool
  | [] => false
  | (_, v) :: rest => hasBadType v || hasBadTypeDict rest

end

mutual

/-- Claim-side nesting depth, counting the root as depth 1 (scalars have
depth 1, a container's depth is one more than its deepest element, and an
empty container has depth 1). -/
def nestDepth : PyVal → Nat
  | PyVal.list xs => 1 + nestDepthList xs
  | PyVal.dict kvs => 1 + nestDepthDict kvs
  | _ => 1

def nestDepthList : List PyVal → Nat
  | [] => 0
  | x :: rest => max (nestDepth x) (nestDepthList rest)

def nestDepthDict : List (PyKey × PyVal) → Nat
  | [] => 0
  | (_, v) :: rest => max (nestDepth v) (nestDepthDict rest)

end

/- ===================== Deep merge (web/routes/character.py) ===================== -/

/-- Association-list lookup, Python `k in out` / `out[k]` read. -/
def dictGet (out : List (PyKey × PyVal)) (k : PyKey) : Option PyVal :=
  match out with
  | [] => none
  | (k', v) :: rest => if k' = k then some v else dictGet rest k

/-- Python `out[k] = v` on a dict modelled as an insertion-ordered
association list without duplicate keys: replace the first binding of `k`,
or append a new binding. -/
def dictSet (out : List (PyKey × PyVal)) (k : PyKey) (v : PyVal) :
    List (PyKey × PyVal) :=
  match out with
  | [] => [(k, v)]
  | (k', v') :: rest =>
    if k' = k then (k', v) :: rest else (k', v') :: dictSet rest k v

mutual

/-- `_deep_merge(base, delta)` (character.py lines 65-75): when both values
are dicts, merge key-by-key recursively; otherwise the incoming value
replaces the existing one. -/
def deepMerge (base delta : PyVal) : PyVal :=
  match base, delta with
  | PyVal.dict b, PyVal.dict d => PyVal.dict (mergeItems b d)
  | _, _ => delta

/-- The `for k, v in delta.items()` loop of `_deep_merge` over
`out = dict(base)`. -/
def mergeItems (out : List (PyKey × PyVal)) (items : List (PyKey × PyVal)) :
    List (PyKey × PyVal) :=
  match items with
  | [] => out
  | (k, v) :: rest =>
    let out' :=
      match dictGet out k with
      | some bv => dictSet out k (deepMerge bv v)
      | none => dictSet out k v
    mergeItems out' rest

end

/-- The key list of a dict association list. -/
def dictKeys (out : List (PyKey × PyVal)) : List PyKey :=
  out.map Prod.fst

/- ===================== Change requests (state_change_requests.py, character.py) ===================== -/

/-- `state_change_requests.status` values. -/
inductive ReqStatus where
  | pending
  | applied
  | rejected
deriving DecidableEq, Repr

/-- One `state_change_requests` row (the columns the apply/reject routes
read or write). -/
structure StateChangeRequest where
  kind : String
  delta_json_text : String
  status : ReqStatus
  error_text : Option String
deriving Repr

/-- `set_status` (state_change_requests.py lines 39-54): an unconditional
UPDATE of status and error_text (`error_text or None`), with no guard on the
current status. -/
def set_status (r : StateChangeRequest) (status : ReqStatus)
    (error_text : String) : StateChangeRequest :=
  { r with
    status := status
    error_text := if error_text = "" then none else some error_text }

/-- `change_apply` (character.py lines 78-124) restricted to one existing
request and the session's character sheet: reject non-`state_delta` kinds;
validate the delta (the `json.loads` outcome passed as `deltaLoads`); on
failure reject with the validator's message; on success deep-merge into the
sheet (an empty dict when the stored sheet is not a dict) and mark applied.
Returns the updated request and sheet. -/
def change_apply (r : StateChangeRequest) (deltaLoads : Except String PyVal)
    (sheet : PyVal) : StateChangeRequest × PyVal :=
  if r.kind ≠ "state_delta" then
    (set_status r ReqStatus.rejected "暂不支持自动应用该类型", sheet)
  else
    match validate_state_delta_json (pyStrip r.delta_json_text) deltaLoads 8000 8 with
    | Except.error e => (set_status r ReqStatus.rejected e, sheet)
    | Except.ok delta =>
      let base := if sheet.isDict then sheet else PyVal.dict []
      (set_status r ReqStatus.applied "", deepMerge base delta)

/-- `change_reject` (character.py lines 127-137): unconditionally mark the
request rejected. -/
def change_reject (r : StateChangeRequest) : StateChangeRequest :=
  set_status r ReqStatus.rejected ""

/-- One user operation on a pending-changes row: the apply route (carrying
the `json.loads` outcome for its delta text) or the reject route. -/
inductive ChangeOp where
  | applyOp (deltaLoads : Except String PyVal)
  | rejectOp

/-- Run one route invocation against the request and the character sheet. -/
def runChangeOp (op : ChangeOp) (s : StateChangeRequest × PyVal) :
    StateChangeRequest × PyVal :=
  match op with
  | ChangeOp.applyOp deltaLoads => change_apply s.1 deltaLoads s.2
  | ChangeOp.rejectOp => (change_reject s.1, s.2)

/-- Run a sequence of route invocations left to right. -/
def runChangeOps (ops : List ChangeOp) (s : StateChangeRequest × PyVal) :
    StateChangeRequest × PyVal :=
  ops.foldl (fun st op => runChangeOp op st) s

/- ===================== Database state (db/repos) ===================== -/

/-- One `session_summaries` row. -/
structure SummaryRow where
  id : Nat
  session_id : Nat
  level : String
  start_turn : Int
  end_turn : Int
  summary : String
deriving DecidableEq, Repr

/-- One `story_journal_entries` row (the columns read by the rollup and the
prompt builder; text columns model SQL NULL as the empty string, matching
the `or ''` reads in the source). -/
structure JournalRow where
  id : Nat
  session_id : Nat
  turn_index : Option Int
  scene_id : String
  summary : String
  open_threads : String
  key_facts : String
deriving DecidableEq, Repr

/-- The database state the rollup and prompt assembly touch: the two tables,
plus the AUTOINCREMENT counter for `session_summaries.id`. -/
structure Db where
  summaries : List SummaryRow
  journal : List JournalRow
  nextSummaryId : Nat
deriving Repr

/-- The chapter-level summary rows of a session, in table order. -/
def chapterRows (db : Db) (sid : Nat) : List SummaryRow :=
  db.summaries.filter (fun r => decide (r.session_id = sid ∧ r.level = "chapter"))

/-- The campaign-level summary rows of a session, in table order. -/
def campaignRows (db : Db) (sid : Nat) : List SummaryRow :=
  db.summaries.filter (fun r => decide (r.session_id = sid ∧ r.level = "campaign"))

/-- `get_chapter_rollup_progress` (summaries.py lines 58-63):
`COALESCE(MAX(end_turn), -1)` over the session's chapter summaries. -/
def get_chapter_rollup_progress (db : Db) (sid : Nat) : Int :=
  (chapterRows db sid).foldl (fun m r => max m r.end_turn) (-1)

/-- `insert_summary` (summaries.py lines 34-51): append a row with the next
rowid. -/
def insert_summary (db : Db) (sid : Nat) (level : String)
    (start_turn end_turn : Int) (summary : String) : Db :=
  { db with
    summaries :=
      db.summaries ++ [⟨db.nextSummaryId, sid, level, start_turn, end_turn, summary⟩]
    nextSummaryId := db.nextSummaryId + 1 }

/-- `delete_campaign_summaries` (summaries.py lines 54-55). -/
def delete_campaign_summaries (db : Db) (sid : Nat) : Db :=
  { db with
    summaries :=
      db.summaries.filter (fun r => decide (¬(r.session_id = sid ∧ r.level = "campaign"))) }

/-- `ORDER BY start_turn ASC` on summary rows. -/
def startLe (a b : SummaryRow) : Prop :=
  a.start_turn ≤ b.start_turn

instance : DecidableRel startLe := fun a b => by
  unfold startLe; infer_instance

instance : IsTotal SummaryRow startLe :=
  ⟨by intro a b; unfold startLe; omega⟩

instance : IsTrans SummaryRow startLe :=
  ⟨by intro a b c; unfold startLe; omega⟩

/-- `list_chapter_summaries` (summaries.py lines 20-31): the session's
chapter summaries ordered by start_turn ascending, `LIMIT limit`. -/
def list_chapter_summaries (db : Db) (sid : Nat) (limit : Nat) : List SummaryRow :=
  (List.insertionSort startLe (chapterRows db sid)).take limit

/-- A row of the rollup's journal-window query: non-NULL turn_index, rowid,
summary text. -/
structure WRow where
  turn_index : Int
  id : Nat
  summary : String
deriving DecidableEq, Repr

/-- `ORDER BY turn_index ASC, id ASC`. -/
def wle (a b : WRow) : Prop :=
  a.turn_index < b.turn_index ∨ (a.turn_index = b.turn_index ∧ a.id ≤ b.id)

instance : DecidableRel wle := fun a b => by
  unfold wle; infer_instance

instance : IsTotal WRow wle :=
  ⟨by intro a b; unfold wle; omega⟩

instance : IsTrans WRow wle :=
  ⟨by intro a b c; unfold wle; omega⟩

/-- The WHERE clause of the rollup's journal-window SELECT: keep the row
when it belongs to the session and has a non-NULL turn_index between `lo`
and `hi`. -/
def windowRow (sid : Nat) (lo hi : Int) (j : JournalRow) : Option WRow :=
  match j.turn_index with
  | some ti =>
    if j.session_id = sid ∧ lo ≤ ti ∧ ti ≤ hi then
      some ⟨ti, j.id, j.summary⟩
    else none
  | none => none

/-- The journal-window SELECT of `_maybe_rollup_summaries` (orchestrator.py
lines 302-310): the session's journal rows with a non-NULL turn_index
between `lo` and `hi`, ordered by turn_index then id. -/
def journalWindow (db : Db) (sid : Nat) (lo hi : Int) : List WRow :=
  List.insertionSort wle (db.journal.filterMap (windowRow sid lo hi))

/-- `_truncate(text, max_chars)` (orchestrator.py lines 275-279). -/
def pyTruncate (text : String) (max_chars : Nat) : String :=
  let t := pyStrip text
  if t.length ≤ max_chars then t
  else String.mk (dropWhileRight pyIsSpace (t.toList.take (max_chars - 1))) ++ "…"

/-- `x or "（空）"` on a possibly-empty string. -/
def orEmptyMark (s : String) : String :=
  if s = "" then "（空）" else s

/-- `_maybe_rollup_summaries(conn, session_id, current_turn_index)`
(orchestrator.py lines 282-347), with its constants RECENT_BUFFER=12,
CHAPTER_CHUNK=20, CHAPTER_MAX_CHARS=1200, CAMPAIGN_MAX_CHARS=1500,
CAMPAIGN_REGEN_CHAPTERS=3 inlined.  The two `match ... | [] =>` arms are
unreachable (guarded by the preceding length tests, where Python's
indexing/`max` would otherwise raise). -/
def maybeRollupSummaries (db : Db) (sid : Nat) (current_turn_index : Int) : Db :=
  let progress_end := get_chapter_rollup_progress db sid
  let start_turn := progress_end + 1
  let end_limit := max (-1) (current_turn_index - 12)
  if end_limit < start_turn then db
  else
    let rows := journalWindow db sid start_turn end_limit
    if rows.length < 20 then db
    else
      match rows.take 20 with
      | [] => db
      | c0 :: crest =>
        let chunk_start := c0.turn_index
        let chunk_end := (crest.getLastD c0).turn_index
        let lines := (c0 :: crest).filterMap (fun r =>
          let s := pyStrip r.summary
          if s = "" then none else some s)
        let chapter_text := orEmptyMark (pyTruncate (joinNl lines) 1200)
        let db1 := insert_summary db sid "chapter" chunk_start chunk_end chapter_text
        let chapters := list_chapter_summaries db1 sid 200
        if chapters.length < 3 then db1
        else
          let merged := pyStrip (joinBlank (chapters.map (fun c =>
            "[" ++ toString c.start_turn ++ "-" ++ toString c.end_turn ++ "]\n"
              ++ c.summary)))
          let campaign_text := orEmptyMark (pyTruncate merged 1500)
          match chapters with
          | [] => db1
          | ch0 :: chrest =>
            let latest_end := chrest.foldl (fun m c => max m c.end_turn) ch0.end_turn
            let db2 := delete_campaign_summaries db1 sid
            insert_summary db2 sid "campaign" 0 latest_end campaign_text

/- ===================== Story-memory assembly (orchestrator.py) ===================== -/

/-- `get_latest_summary` (summaries.py lines 6-17): the session's summary
row of the given level with the lexicographically largest (end_turn, id)
(`ORDER BY end_turn DESC, id DESC LIMIT 1`). -/
def get_latest_summary (db : Db) (sid : Nat) (level : String) : Option SummaryRow :=
  match db.summaries.filter (fun r => decide (r.session_id = sid ∧ r.level = level)) with
  | [] => none
  | x :: xs =>
    some (xs.foldl (fun best r =>
      if best.end_turn < r.end_turn ∨ (best.end_turn = r.end_turn ∧ best.id < r.id)
      then r else best) x)

/-- `ORDER BY id DESC` on journal rows. -/
def idGe (a b : JournalRow) : Prop :=
  b.id ≤ a.id

instance : DecidableRel idGe := fun a b => by
  unfold idGe; infer_instance

instance : IsTotal JournalRow idGe :=
  ⟨by intro a b; unfold idGe; omega⟩

instance : IsTrans JournalRow idGe :=
  ⟨by intro a b c; unfold idGe; omega⟩

/-- `select_story_journal_for_prompt` (story_journal.py lines 20-30): the
session's journal rows, newest rowid first, `LIMIT limit`. -/
def select_story_journal_for_prompt (db : Db) (sid : Nat) (limit : Nat) :
    List JournalRow :=
  (List.insertionSort idGe (db.journal.filter (fun j => decide (j.session_id = sid)))).take limit

/-- The per-entry block rendering of `_fetch_story_journal` (orchestrator.py
lines 62-65). -/
def renderJournalBlock (r : JournalRow) : String :=
  "场景：" ++ r.scene_id ++ "\n摘要：" ++ r.summary ++ "\n未解决：" ++ r.open_threads
    ++ "\n要点：" ++ r.key_facts

/-- `_fetch_story_journal` (orchestrator.py lines 54-66): newest-first rows,
reversed to chronological order (`rows[::-1]`), rendered as blocks. -/
def fetchStoryJournal (db : Db) (sid : Nat) (limit : Nat) : List String :=
  ((select_story_journal_for_prompt db sid limit).reverse).map renderJournalBlock

/-- The story-memory block assembly of `build_turn_messages_and_preview`
(orchestrator.py lines 144-152): journal blocks, then prepend the campaign
summary block when present and non-empty, then prepend the chapter summary
block when present and non-empty. -/
def storyBlocks (db : Db) (sid : Nat) (historyLimit : Nat) : List String :=
  let sb := fetchStoryJournal db sid historyLimit
  let sb :=
    match get_latest_summary db sid "campaign" with
    | some cs =>
      if pyStrip cs.summary ≠ "" then ("【战役总摘要】\n" ++ pyStrip cs.summary) :: sb
      else sb
    | none => sb
  match get_latest_summary db sid "chapter" with
  | some hs =>
    if pyStrip hs.summary ≠ "" then ("【最近章节摘要】\n" ++ pyStrip hs.summary) :: sb
    else sb
  | none => sb

/-- A latest-summary block as claim C4 describes it: a standalone prefixed
block when the summary exists with non-empty text, nothing otherwise. -/
def summaryBlockOpt (label : String) (s : Option SummaryRow) : List String :=
  match s with
  | some r => if pyStrip r.summary ≠ "" then [label ++ pyStrip r.summary] else []
  | none => []

/-- The block sequence exactly as claim C4 states it: latest campaign
summary first, then latest chapter summary, then the journal blocks in
chronological order. -/
def storyBlocksClaim (db : Db) (sid : Nat) (historyLimit : Nat) : List String :=
  summaryBlockOpt "【战役总摘要】\n" (get_latest_summary db sid "campaign")
    ++ summaryBlockOpt "【最近章节摘要】\n" (get_latest_summary db sid "chapter")
    ++ fetchStoryJournal db sid historyLimit

/-- The block sequence as amended: latest chapter summary first, then latest
campaign summary, then the journal blocks in chronological order. -/
def storyBlocksAmended (db : Db) (sid : Nat) (historyLimit : Nat) : List String :=
  summaryBlockOpt "【最近章节摘要】\n" (get_latest_summary db sid "chapter")
    ++ summaryBlockOpt "【战役总摘要】\n" (get_latest_summary db sid "campaign")
    ++ fetchStoryJournal db sid historyLimit


/- ===================== Claim-side auxiliary definitions ===================== -/

/-- Claim C2's rejection condition: empty/whitespace-only input, input over
the character cap, parse failure, a non-object top level, a non-string
mapping key, nesting deeper than `md` (root at depth 1), or a value of an
unsupported type. -/
def guardReject (t : String) (loads : Except String PyVal) (mc md : Nat) : Prop :=
  pyStrip t = "" ∨ mc < (pyStrip t).length ∨ (∃ e, loads = Except.error e) ∨
    (∃ v, loads = Except.ok v ∧
      (v.isDict = false ∨ hasNonStrKey v = true ∨ hasBadType v = true ∨
        md < nestDepth v))

/-- Rollup constant (orchestrator.py line 289). -/
def RECENT_BUFFER : Nat := 12

/-- Rollup constant (orchestrator.py line 290). -/
def CHAPTER_CHUNK : Nat := 20

/-- Rollup constant (orchestrator.py line 293). -/
def CAMPAIGN_REGEN_CHAPTERS : Nat := 3

/-- Claim C3's eligible-entry count: journal entries of the session whose
turn_index lies in the summarizable window
[progressEnd + 1, currentTurnIndex − RECENT_BUFFER]. -/
def windowCount (db : Db) (sid : Nat) (cur : Int) : Nat :=
  (journalWindow db sid (get_chapter_rollup_progress db sid + 1) (cur - 12)).length

/-- Witness state for claim C3: twenty journal entries (turn_index 0..19)
eligible for summarization, no summaries yet. -/
def cexDb20 : Db :=
  ⟨[], (List.range 20).map (fun i => ⟨i, 1, some (Int.ofNat i), "", "x", "", ""⟩), 0⟩

/-- Witness state for claim C3: nineteen eligible journal entries. -/
def cexDb19 : Db :=
  ⟨[], (List.range 19).map (fun i => ⟨i, 1, some (Int.ofNat i), "", "x", "", ""⟩), 0⟩

/-- Witness state for claim C6: two existing chapter summaries, two stale
campaign summaries, and twenty eligible journal entries (turn_index 40..59)
that will trigger the third chapter summary. -/
def cexDbC6 : Db :=
  ⟨[⟨0, 1, "chapter", 0, 19, "a"⟩, ⟨1, 1, "chapter", 20, 39, "b"⟩,
    ⟨2, 1, "campaign", 0, 10, "old1"⟩, ⟨3, 1, "campaign", 0, 11, "old2"⟩],
   (List.range 20).map (fun i => ⟨i, 1, some (Int.ofNat (40 + i)), "", "x", "", ""⟩),
   4⟩

/-- Counterexample state for claim C5: forty journal entries (turn_index
0..39) eligible for summarization, no summaries yet. -/
def cexDb40 : Db :=
  ⟨[], (List.range 40).map (fun i => ⟨i, 1, some (Int.ofNat i), "", "x", "", ""⟩), 0⟩

/-- Counterexample state for claim C6: two hundred existing chapter
summaries (ranges [i, i] for i = 0..199) and twenty eligible journal
entries (turn_index 200..219) that will trigger a 201st chapter summary. -/
def cexDb201 : Db :=
  ⟨(List.range 200).map (fun i => ⟨i, 1, "chapter", Int.ofNat i, Int.ofNat i, "x"⟩),
   (List.range 20).map (fun i => ⟨200 + i, 1, some (Int.ofNat (200 + i)), "", "x", "", ""⟩),
   200⟩

/-- Counterexample state for claim C4: one campaign summary and one chapter
summary, both with non-empty text, no journal entries. -/
def cexDbStory : Db :=
  ⟨[⟨0, 1, "campaign", 0, 0, "C"⟩, ⟨1, 1, "chapter", 0, 0, "H"⟩], [], 2⟩

/-- Counterexample input for claim C1: all six reserved tokens appear as
exact lines, but the narration section also contains a whitespace-padded
marker line ("  ===CHOICES===") and a blank line, which the code treats as
a section switch and as strippable content respectively. -/
def cexParseText : String :=
  joinNl ["===NARRATION===", "", "hello", "  ===CHOICES===", "world",
    "===CHOICES===", "- a", "===DM_NOTES===", "n1", "===MEMORY===", "m1",
    "===STATE_DELTA===", "\x7b\x7d", "===THREAD_UPDATES===", "[]"]

/- ===================== Generic string/list lemmas ===================== -/

theorem strToList_mk (l : List Char) : (String.mk l).toList = l := rfl

theorem strMk_toList (s : String) : String.mk s.toList = s := by
  cases s; rfl

theorem strToList_append (s t : String) :
    (s ++ t).toList = s.toList ++ t.toList := by
  cases s; cases t; rfl

theorem str_eq_empty_iff (s : String) : s = "" ↔ s.toList = [] := by
  cases s with
  | mk l =>
    constructor
    · intro h
      rw [h]
      rfl
    · intro h
      simp only [strToList_mk] at h
      rw [h]

theorem str_append_ne_empty_left (a b : String) (h : a ≠ "") : a ++ b ≠ "" := by
  intro hc
  apply h
  rw [str_eq_empty_iff, strToList_append, List.append_eq_nil] at hc
  rw [str_eq_empty_iff]
  exact hc.1

theorem dropWhile_self_of (p : Char → Bool) (l : List Char)
    (h : ∀ a ∈ l, p a = false) : l.dropWhile p = l := by
  cases l with
  | nil => rfl
  | cons a t => simp [List.dropWhile_cons, h a (by simp)]

theorem dropWhileRight_self_of (p : Char → Bool) (l : List Char)
    (h : ∀ a ∈ l, p a = false) : dropWhileRight p l = l := by
  unfold dropWhileRight
  rw [dropWhile_self_of p l.reverse (fun a ha => h a (List.mem_reverse.mp ha))]
  exact List.reverse_reverse l

theorem dropWhile_head_false (p : Char → Bool) (a : Char) (t : List Char)
    (h : p a = false) : (a :: t).dropWhile p = a :: t := by
  simp [List.dropWhile_cons, h]

theorem dropWhile_append_of_head_false (p : Char → Bool) (a : Char)
    (t k : List Char) (h : p a = false) :
    ((a :: t) ++ k).dropWhile p = (a :: t) ++ k := by
  simp [List.dropWhile_cons, h]

theorem dropWhileRight_sublist (p : Char → Bool) (l : List Char) :
    (dropWhileRight p l).Sublist l := by
  unfold dropWhileRight
  have h1 : (l.reverse.dropWhile p).Sublist l.reverse := List.dropWhile_sublist _
  have := h1.reverse
  simpa using this

theorem head_false_of_dropWhile_self (p : Char → Bool) (a : Char) (t : List Char)
    (h : (a :: t).dropWhile p = a :: t) : p a = false := by
  by_contra hc
  rw [Bool.not_eq_false] at hc
  rw [List.dropWhile_cons, if_pos hc] at h
  have hlen := congrArg List.length h
  have hle := (List.dropWhile_sublist (l := t) p).length_le
  simp at hlen
  omega

theorem dropWhileRight_append_of_self (p : Char → Bool) (m : List Char)
    (hm : dropWhileRight p m = m) (hne : m ≠ []) (k : List Char) :
    dropWhileRight p (k ++ m) = k ++ m := by
  unfold dropWhileRight at hm ⊢
  have hrev : m.reverse.dropWhile p = m.reverse := by
    have := congrArg List.reverse hm
    simpa using this
  cases hr : m.reverse with
  | nil =>
    exfalso
    apply hne
    simpa using congrArg List.reverse hr
  | cons a t =>
    rw [hr] at hrev
    have ha := head_false_of_dropWhile_self p a t hrev
    rw [List.reverse_append, hr, dropWhile_append_of_head_false p a t _ ha,
      ← hr, ← List.reverse_append, List.reverse_reverse]

theorem stripWs_self_split (l : List Char) (h : stripWs l = l) :
    l.dropWhile pyIsSpace = l ∧ dropWhileRight pyIsSpace l = l := by
  unfold stripWs at h
  have h1 : (l.dropWhile pyIsSpace).Sublist l := List.dropWhile_sublist _
  have h2 : (dropWhileRight pyIsSpace (l.dropWhile pyIsSpace)).Sublist
      (l.dropWhile pyIsSpace) := dropWhileRight_sublist _ _
  have hlen := congrArg List.length h
  have l1 := h1.length_le
  have l2 := h2.length_le
  have hm : l.dropWhile pyIsSpace = l := by
    apply h1.eq_of_length
    omega
  refine ⟨hm, ?_⟩
  rw [hm] at h
  exact h

theorem digit_mem_asciiDigits (c : Char) (h : pyIsDigit c = true) :
    c ∈ asciiDigits := by
  unfold pyIsDigit at h
  exact List.mem_of_elem_eq_true h

theorem digit_not_space (c : Char) (h : pyIsDigit c = true) :
    pyIsSpace c = false := by
  have hm := digit_mem_asciiDigits c h
  fin_cases hm <;> decide

theorem digit_ne_dash (c : Char) (h : pyIsDigit c = true) : c ≠ '-' := by
  have hm := digit_mem_asciiDigits c h
  fin_cases hm <;> decide

theorem digit_ne_nl (c : Char) (h : pyIsDigit c = true) : c ≠ '\n' := by
  have hm := digit_mem_asciiDigits c h
  fin_cases hm <;> decide

theorem digit_contains (c : Char) (h : pyIsDigit c = true) :
    asciiDigits.contains c = true := h

theorem splitNl_ne_nil (l : List Char) : splitNl l ≠ [] := by
  induction l with
  | nil => simp [splitNl]
  | cons c cs ih =>
    unfold splitNl
    by_cases hc : c = '\n'
    · simp [hc]
    · simp only [if_neg hc]
      cases hr : splitNl cs with
      | nil => simp
      | cons piece more => simp

theorem splitNl_no_nl (l : List Char) :
    ∀ piece ∈ splitNl l, '\n' ∉ piece := by
  induction l with
  | nil =>
    intro piece hp
    simp [splitNl] at hp
    simp [hp]
  | cons c cs ih =>
    intro piece hp
    unfold splitNl at hp
    by_cases hc : c = '\n'
    · simp only [if_pos hc] at hp
      cases hp with
      | head => simp
      | tail _ h => exact ih piece h
    · simp only [if_neg hc] at hp
      cases hr : splitNl cs with
      | nil => exact absurd hr (splitNl_ne_nil cs)
      | cons p0 more =>
        rw [hr] at hp
        cases hp with
        | head =>
          intro hmem
          cases hmem with
          | head => exact hc rfl
          | tail _ h => exact ih p0 (hr ▸ List.mem_cons_self p0 more) h
        | tail _ h => exact ih piece (hr ▸ List.mem_cons_of_mem p0 h)

theorem splitNl_single (l : List Char) (h : '\n' ∉ l) : splitNl l = [l] := by
  induction l with
  | nil => rfl
  | cons c cs ih =>
    have hc : ¬c = '\n' := fun hcc => h (hcc ▸ List.mem_cons_self c cs)
    have hcs : '\n' ∉ cs := fun hm => h (List.mem_cons_of_mem c hm)
    unfold splitNl
    simp only [if_neg hc, ih hcs]

theorem pySplitlines_single (s : String) (hne : s ≠ "")
    (h : '\n' ∉ s.toList) : pySplitlines s = [s] := by
  unfold pySplitlines
  rw [if_neg hne]
  simp only [splitNl_single s.toList h, List.map, strMk_toList]
  rw [if_neg]
  simp only [List.getLast?_singleton, Option.some.injEq]
  exact hne

theorem pySplitlines_mem_no_nl (s : String) :
    ∀ piece ∈ pySplitlines s, '\n' ∉ piece.toList := by
  intro piece hp
  unfold pySplitlines at hp
  by_cases hs : s = ""
  · simp [if_pos hs] at hp
  · rw [if_neg hs] at hp
    have hmem : piece ∈ (splitNl s.toList).map String.mk := by
      by_cases hlast : ((splitNl s.toList).map String.mk).getLast? = some "" <;>
        simp only [hlast, if_pos, if_neg] at hp
      · exact List.dropLast_sublist _ |>.mem hp
      · exact hp
    obtain ⟨l, hl, rfl⟩ := List.mem_map.mp hmem
    simpa using splitNl_no_nl s.toList l hl

theorem rstripL_no_occurrence (cs : List Char) (s : String)
    (h : ∀ c ∈ s.toList, cs.contains c = false) : pyRstrip cs s = s := by
  unfold pyRstrip rstripL
  rw [dropWhileRight_self_of _ _ h, strMk_toList]

theorem pyRstrip_nl_of_no_nl (s : String) (h : '\n' ∉ s.toList) :
    pyRstrip ['\n'] s = s := by
  apply rstripL_no_occurrence
  intro c hc
  simp only [List.contains_cons, List.contains_nil, Bool.or_false]
  cases hbe : (c == '\n') with
  | false => rfl
  | true =>
    have : c = '\n' := by
      exact beq_iff_eq.mp hbe
    exact absurd (this ▸ hc) h

/- ===================== Deep-merge lemmas ===================== -/

theorem dictGet_cons (k : PyKey) (v : PyVal) (rest : List (PyKey × PyVal))
    (q : PyKey) :
    dictGet ((k, v) :: rest) q = if k = q then some v else dictGet rest q := rfl

theorem dictSet_cons (k' : PyKey) (v' : PyVal) (rest : List (PyKey × PyVal))
    (k : PyKey) (v : PyVal) :
    dictSet ((k', v') :: rest) k v =
      if k' = k then (k', v) :: rest else (k', v') :: dictSet rest k v := rfl

theorem dictGet_dictSet (out : List (PyKey × PyVal)) (k : PyKey) (v : PyVal)
    (q : PyKey) :
    dictGet (dictSet out k v) q = if q = k then some v else dictGet out q := by
  induction out with
  | nil =>
    by_cases hq : q = k
    · subst hq
      simp [dictSet, dictGet]
    · have hq2 : ¬k = q := fun h => hq h.symm
      simp [dictSet, dictGet, hq, hq2]
  | cons kv rest ih =>
    obtain ⟨k', v'⟩ := kv
    by_cases hk : k' = k
    · subst hk
      by_cases hq : q = k'
      · subst hq
        simp [dictSet_cons, dictGet_cons]
      · have hq2 : ¬k' = q := fun h => hq h.symm
        simp [dictSet_cons, dictGet_cons, hq, hq2]
    · by_cases hq : q = k'
      · subst hq
        simp [dictSet_cons, dictGet_cons, hk]
      · have hq2 : ¬k' = q := fun h => hq h.symm
        simp only [dictSet_cons, if_neg hk, dictGet_cons, if_neg hq2, ih]

theorem mem_dictKeys_cons (k : PyKey) (v : PyVal) (rest : List (PyKey × PyVal))
    (q : PyKey) :
    q ∈ dictKeys ((k, v) :: rest) ↔ q = k ∨ q ∈ dictKeys rest := by
  simp [dictKeys]

theorem mem_dictKeys_dictSet (out : List (PyKey × PyVal)) (k : PyKey)
    (v : PyVal) (q : PyKey) :
    q ∈ dictKeys (dictSet out k v) ↔ q = k ∨ q ∈ dictKeys out := by
  induction out with
  | nil => simp [dictSet, dictKeys]
  | cons kv rest ih =>
    obtain ⟨k', v'⟩ := kv
    rw [dictSet_cons]
    by_cases hk : k' = k
    · subst hk
      rw [if_pos rfl, mem_dictKeys_cons, mem_dictKeys_cons]
      tauto
    · rw [if_neg hk, mem_dictKeys_cons, mem_dictKeys_cons, ih]
      tauto

theorem dictGet_eq_none_of_not_mem (out : List (PyKey × PyVal)) (q : PyKey)
    (h : q ∉ dictKeys out) : dictGet out q = none := by
  induction out with
  | nil => rfl
  | cons kv rest ih =>
    obtain ⟨k', v'⟩ := kv
    rw [mem_dictKeys_cons] at h
    push_neg at h
    rw [dictGet_cons, if_neg (fun hc : k' = q => h.1 hc.symm)]
    exact ih h.2

theorem mergeItems_cons (out : List (PyKey × PyVal)) (k : PyKey) (v : PyVal)
    (rest : List (PyKey × PyVal)) :
    mergeItems out ((k, v) :: rest) =
      mergeItems (match dictGet out k with
        | some bv => dictSet out k (deepMerge bv v)
        | none => dictSet out k v) rest := by
  rw [mergeItems]

theorem mem_dictKeys_mergeItems (items : List (PyKey × PyVal)) :
    ∀ (out : List (PyKey × PyVal)) (q : PyKey),
      q ∈ dictKeys (mergeItems out items) ↔
        q ∈ dictKeys out ∨ q ∈ dictKeys items := by
  induction items with
  | nil =>
    intro out q
    simp [mergeItems, dictKeys]
  | cons kv rest ih =>
    intro out q
    obtain ⟨k, v⟩ := kv
    rw [mergeItems_cons]
    cases hg : dictGet out k with
    | some bv =>
      show q ∈ dictKeys (mergeItems (dictSet out k (deepMerge bv v)) rest) ↔ _
      rw [ih, mem_dictKeys_dictSet, mem_dictKeys_cons]
      tauto
    | none =>
      show q ∈ dictKeys (mergeItems (dictSet out k v) rest) ↔ _
      rw [ih, mem_dictKeys_dictSet, mem_dictKeys_cons]
      tauto

theorem dictGet_mergeItems (items : List (PyKey × PyVal)) :
    (dictKeys items).Nodup →
    ∀ (out : List (PyKey × PyVal)) (q : PyKey),
      dictGet (mergeItems out items) q =
        match dictGet out q, dictGet items q with
        | some bv, some dv => some (deepMerge bv dv)
        | some bv, none => some bv
        | none, o => o := by
  induction items with
  | nil =>
    intro _ out q
    cases hg : dictGet out q <;> simp [mergeItems, dictGet, hg]
  | cons kv rest ih =>
    intro hnd out q
    obtain ⟨k, v⟩ := kv
    rw [show dictKeys ((k, v) :: rest) = k :: dictKeys rest from rfl] at hnd
    rw [List.nodup_cons] at hnd
    obtain ⟨hk_not, hnd_rest⟩ := hnd
    have hrest := ih hnd_rest
    rw [mergeItems_cons, dictGet_cons]
    by_cases hq : q = k
    · subst hq
      have hrest_none : dictGet rest q = none :=
        dictGet_eq_none_of_not_mem rest q hk_not
      rw [if_pos rfl]
      cases hg : dictGet out q with
      | some bv =>
        show dictGet (mergeItems (dictSet out q (deepMerge bv v)) rest) q = _
        rw [hrest, dictGet_dictSet, if_pos rfl, hrest_none]
      | none =>
        show dictGet (mergeItems (dictSet out q v) rest) q = _
        rw [hrest, dictGet_dictSet, if_pos rfl, hrest_none]
    · have hq2 : ¬k = q := fun h => hq h.symm
      rw [if_neg hq2]
      cases hg : dictGet out k with
      | some bv =>
        show dictGet (mergeItems (dictSet out k (deepMerge bv v)) rest) q = _
        rw [hrest, dictGet_dictSet, if_neg hq]
      | none =>
        show dictGet (mergeItems (dictSet out k v) rest) q = _
        rw [hrest, dictGet_dictSet, if_neg hq]
/- ===================== Guardrail lemmas ===================== -/

theorem nestDepth_pos (v : PyVal) : 1 ≤ nestDepth v := by
  cases v <;> simp [nestDepth]

theorem msgDepth_ne_empty (md : Nat) : msgDepth md ≠ "" := by
  unfold msgDepth
  apply str_append_ne_empty_left
  apply str_append_ne_empty_left
  decide

theorem msgBadType_ne_empty (ty : String) : msgBadType ty ≠ "" := by
  unfold msgBadType
  apply str_append_ne_empty_left
  decide

theorem msgTooBig_ne_empty (mc : Nat) : msgTooBig mc ≠ "" := by
  unfold msgTooBig
  apply str_append_ne_empty_left
  apply str_append_ne_empty_left
  decide

theorem msgParseFail_ne_empty (e : String) : msgParseFail e ≠ "" := by
  unfold msgParseFail
  apply str_append_ne_empty_left
  decide

mutual

theorem pyCheck_ok_iff (v : PyVal) : ∀ (d md : Nat),
    (pyCheck md v d = Except.ok () ↔
      (hasNonStrKey v = false ∧ hasBadType v = false ∧ nestDepth v + d ≤ md + 1))
    ∧ (∀ m, pyCheck md v d = Except.error m → m ≠ "") := by
  intro d md
  by_cases hd : md < d
  · constructor
    · rw [pyCheck.eq_def, if_pos hd]
      constructor
      · intro h
        exact absurd h (by simp)
      · intro ⟨_, _, hle⟩
        have := nestDepth_pos v
        omega
    · intro m hm
      rw [pyCheck.eq_def, if_pos hd] at hm
      have : m = msgDepth md := by
        cases hm
        rfl
      rw [this]
      exact msgDepth_ne_empty md
  · rw [pyCheck.eq_def, if_neg hd]
    cases v with
    | none_ => simp [hasNonStrKey, hasBadType, nestDepth]; omega
    | str s => simp [hasNonStrKey, hasBadType, nestDepth]; omega
    | int n => simp [hasNonStrKey, hasBadType, nestDepth]; omega
    | float => simp [hasNonStrKey, hasBadType, nestDepth]; omega
    | bool b => simp [hasNonStrKey, hasBadType, nestDepth]; omega
    | other ty =>
      constructor
      · simp [hasBadType]
      · intro m hm
        have : m = msgBadType ty := by cases hm; rfl
        rw [this]
        exact msgBadType_ne_empty ty
    | list xs =>
      have hx := pyCheckList_ok_iff xs (d + 1) md
      constructor
      · rw [hx.1]
        simp only [hasNonStrKey, hasBadType, nestDepth]
        constructor
        · intro ⟨h1, h2, h3⟩
          refine ⟨h1, h2, ?_⟩
          cases h3 with
          | inl he => subst he; simp [nestDepthList]; omega
          | inr hle => omega
        · intro ⟨h1, h2, h3⟩
          refine ⟨h1, h2, ?_⟩
          by_cases he : xs = []
          · exact Or.inl he
          · right; omega
      · exact hx.2
    | dict kvs =>
      have hx := pyCheckDict_ok_iff kvs (d + 1) md
      constructor
      · rw [hx.1]
        simp only [hasNonStrKey, hasBadType, nestDepth]
        constructor
        · intro ⟨h1, h2, h3⟩
          refine ⟨h1, h2, ?_⟩
          cases h3 with
          | inl he => subst he; simp [nestDepthDict]; omega
          | inr hle => omega
        · intro ⟨h1, h2, h3⟩
          refine ⟨h1, h2, ?_⟩
          by_cases he : kvs = []
          · exact Or.inl he
          · right; omega
      · exact hx.2
termination_by sizeOf v

theorem pyCheckList_ok_iff (xs : List PyVal) : ∀ (d md : Nat),
    (pyCheckList md xs d = Except.ok () ↔
      (hasNonStrKeyList xs = false ∧ hasBadTypeList xs = false ∧
        (xs = [] ∨ nestDepthList xs + d ≤ md + 1)))
    ∧ (∀ m, pyCheckList md xs d = Except.error m → m ≠ "") := by
  intro d md
  cases xs with
  | nil =>
    constructor
    · simp [pyCheckList, hasNonStrKeyList, hasBadTypeList]
    · intro m hm
      rw [pyCheckList] at hm
      exact absurd hm (by simp)
  | cons x rest =>
    have hv := pyCheck_ok_iff x d md
    have hr := pyCheckList_ok_iff rest d md
    rw [show pyCheckList md (x :: rest) d =
      (match pyCheck md x d with
       | Except.error e => Except.error e
       | Except.ok _ => pyCheckList md rest d) from rfl]
    cases hc : pyCheck md x d with
    | error e =>
      constructor
      · simp only [show (Except.error e : Except String Unit) ≠ Except.ok () from by simp]
        constructor
        · intro h
          exact absurd h (by simp)
        · intro ⟨h1, h2, h3⟩
          simp only [hasNonStrKeyList, Bool.or_eq_false_iff] at h1
          simp only [hasBadTypeList, Bool.or_eq_false_iff] at h2
          have hnd := nestDepth_pos x
          have hxok : pyCheck md x d = Except.ok () := by
            rw [hv.1]
            refine ⟨h1.1, h2.1, ?_⟩
            cases h3 with
            | inl he => exact absurd he (by simp)
            | inr hle =>
              simp only [nestDepthList] at hle
              omega
          rw [hc] at hxok
          exact absurd hxok (by simp)
      · intro m hm
        have he : m = e := by cases hm; rfl
        subst he
        exact hv.2 m hc
    | ok u =>
      obtain ⟨⟩ := u
      have hxP := hv.1.mp hc
      constructor
      · rw [hr.1]
        simp only [hasNonStrKeyList, hasBadTypeList, nestDepthList,
          Bool.or_eq_false_iff]
        have hnd := nestDepth_pos x
        constructor
        · intro ⟨h1, h2, h3⟩
          refine ⟨⟨hxP.1, h1⟩, ⟨hxP.2.1, h2⟩, ?_⟩
          right
          cases h3 with
          | inl he => subst he; simp [nestDepthList]; omega
          | inr hle =>
            have := hxP.2.2
            omega
        · intro ⟨h1, h2, h3⟩
          refine ⟨h1.2, h2.2, ?_⟩
          by_cases he : rest = []
          · exact Or.inl he
          · right
            cases h3 with
            | inl hee => exact absurd hee (by simp)
            | inr hle =>
              have hrp : 1 ≤ nestDepthList rest := by
                cases rest with
                | nil => exact absurd rfl he
                | cons y ys =>
                  have := nestDepth_pos y
                  simp only [nestDepthList]
                  omega
              omega
      · exact hr.2
termination_by sizeOf xs

theorem pyCheckDict_ok_iff (kvs : List (PyKey × PyVal)) : ∀ (d md : Nat),
    (pyCheckDict md kvs d = Except.ok () ↔
      (hasNonStrKeyDict kvs = false ∧ hasBadTypeDict kvs = false ∧
        (kvs = [] ∨ nestDepthDict kvs + d ≤ md + 1)))
    ∧ (∀ m, pyCheckDict md kvs d = Except.error m → m ≠ "") := by
  intro d md
  cases kvs with
  | nil =>
    constructor
    · simp [pyCheckDict, hasNonStrKeyDict, hasBadTypeDict]
    · intro m hm
      rw [pyCheckDict] at hm
      exact absurd hm (by simp)
  | cons kv rest =>
    obtain ⟨k, v⟩ := kv
    cases k with
    | nonstr tag =>
      constructor
      · rw [show pyCheckDict md ((PyKey.nonstr tag, v) :: rest) d =
          Except.error msgBadKey from rfl]
        simp [hasNonStrKeyDict]
      · intro m hm
        rw [show pyCheckDict md ((PyKey.nonstr tag, v) :: rest) d =
          Except.error msgBadKey from rfl] at hm
        have : m = msgBadKey := by cases hm; rfl
        rw [this]
        decide
    | str ks =>
      have hv := pyCheck_ok_iff v d md
      have hr := pyCheckDict_ok_iff rest d md
      rw [show pyCheckDict md ((PyKey.str ks, v) :: rest) d =
        (match pyCheck md v d with
         | Except.error e => Except.error e
         | Except.ok _ => pyCheckDict md rest d) from rfl]
      cases hc : pyCheck md v d with
      | error e =>
        constructor
        · constructor
          · intro h
            exact absurd h (by simp)
          · intro ⟨h1, h2, h3⟩
            simp only [hasNonStrKeyDict, Bool.or_eq_false_iff] at h1
            simp only [hasBadTypeDict, Bool.or_eq_false_iff] at h2
            have hnd := nestDepth_pos v
            have hxok : pyCheck md v d = Except.ok () := by
              rw [hv.1]
              refine ⟨h1.1, h2.1, ?_⟩
              cases h3 with
              | inl he => exact absurd he (by simp)
              | inr hle =>
                simp only [nestDepthDict] at hle
                omega
            rw [hc] at hxok
            exact absurd hxok (by simp)
        · intro m hm
          have he : m = e := by cases hm; rfl
          subst he
          exact hv.2 m hc
      | ok u =>
        obtain ⟨⟩ := u
        have hxP := hv.1.mp hc
        constructor
        · rw [hr.1]
          simp only [hasNonStrKeyDict, hasBadTypeDict, nestDepthDict,
            Bool.or_eq_false_iff]
          have hnd := nestDepth_pos v
          constructor
          · intro ⟨h1, h2, h3⟩
            refine ⟨⟨hxP.1, h1⟩, ⟨hxP.2.1, h2⟩, ?_⟩
            right
            cases h3 with
            | inl he => subst he; simp [nestDepthDict]; omega
            | inr hle =>
              have := hxP.2.2
              omega
          · intro ⟨h1, h2, h3⟩
            refine ⟨h1.2, h2.2, ?_⟩
            by_cases he : rest = []
            · exact Or.inl he
            · right
              cases h3 with
              | inl hee => exact absurd hee (by simp)
              | inr hle =>
                have hrp : 1 ≤ nestDepthDict rest := by
                  cases rest with
                  | nil => exact absurd rfl he
                  | cons y ys =>
                    obtain ⟨yk, yv⟩ := y
                    have := nestDepth_pos yv
                    simp only [nestDepthDict]
                    omega
                omega
        · exact hr.2
termination_by sizeOf kvs

end

theorem validate_error_ne_empty (t : String) (loads : Except String PyVal)
    (mc md : Nat) (m : String)
    (h : validate_state_delta_json t loads mc md = Except.error m) : m ≠ "" := by
  unfold validate_state_delta_json at h
  by_cases h1 : pyStrip t = ""
  · rw [if_pos h1] at h
    have : m = msgEmpty := by cases h; rfl
    rw [this]
    decide
  · rw [if_neg h1] at h
    by_cases h2 : mc < (pyStrip t).length
    · rw [if_pos h2] at h
      have : m = msgTooBig mc := by cases h; rfl
      rw [this]
      exact msgTooBig_ne_empty mc
    · rw [if_neg h2] at h
      cases loads with
      | error e =>
        have : m = msgParseFail e := by cases h; rfl
        rw [this]
        exact msgParseFail_ne_empty e
      | ok obj =>
        dsimp only at h
        by_cases h3 : obj.isDict = true
        · rw [if_pos h3] at h
          cases hc : pyCheck md obj 1 with
          | error m' =>
            rw [hc] at h
            have : m = m' := by cases h; rfl
            rw [this]
            exact (pyCheck_ok_iff obj 1 md).2 m' hc
          | ok u =>
            obtain ⟨⟩ := u
            rw [hc] at h
            exact absurd h (by simp)
        · rw [if_neg h3] at h
          have : m = msgNotObj := by cases h; rfl
          rw [this]
          decide

theorem validate_ok_iff (t : String) (loads : Except String PyVal)
    (mc md : Nat) (v : PyVal) :
    validate_state_delta_json t loads mc md = Except.ok v ↔
      (¬ guardReject t loads mc md ∧ loads = Except.ok v) := by
  unfold validate_state_delta_json guardReject
  by_cases h1 : pyStrip t = ""
  · rw [if_pos h1]
    simp [h1]
  · rw [if_neg h1]
    by_cases h2 : mc < (pyStrip t).length
    · rw [if_pos h2]
      simp [h1, h2]
    · rw [if_neg h2]
      cases loads with
      | error e => simp [h1, h2]
      | ok obj =>
        dsimp only
        by_cases h3 : obj.isDict = true
        · rw [if_pos h3]
          cases hc : pyCheck md obj 1 with
          | error m' =>
            have hnotok : ¬(hasNonStrKey obj = false ∧ hasBadType obj = false ∧
                nestDepth obj + 1 ≤ md + 1) := by
              intro hP
              have := (pyCheck_ok_iff obj 1 md).1.mpr hP
              rw [hc] at this
              exact absurd this (by simp)
            constructor
            · intro h
              exact absurd h (by simp)
            · intro ⟨hrej, hl⟩
              exfalso
              apply hrej
              right; right; right
              refine ⟨obj, rfl, ?_⟩
              rcases Bool.eq_false_or_eq_true (hasNonStrKey obj) with hk | hk
              · right; left
                exact hk
              · rcases Bool.eq_false_or_eq_true (hasBadType obj) with hb | hb
                · right; right; left
                  exact hb
                · right; right; right
                  by_contra hdd
                  push_neg at hdd
                  exact hnotok ⟨hk, hb, by omega⟩
          | ok u =>
            obtain ⟨⟩ := u
            have hP := (pyCheck_ok_iff obj 1 md).1.mp hc
            constructor
            · intro h
              obtain rfl : obj = v := by cases h; rfl
              refine ⟨?_, rfl⟩
              intro hrej
              rcases hrej with hr | hr | hr | hr
              · exact h1 hr
              · exact h2 hr
              · obtain ⟨e, he⟩ := hr
                exact absurd he (by simp)
              · obtain ⟨w, hw, hbad⟩ := hr
                obtain rfl : w = obj := by cases hw; rfl
                rcases hbad with hb | hb | hb | hb
                · rw [h3] at hb
                  exact absurd hb (by simp)
                · rw [hP.1] at hb
                  exact absurd hb (by simp)
                · rw [hP.2.1] at hb
                  exact absurd hb (by simp)
                · have := hP.2.2
                  omega
            · intro ⟨hrej, hl⟩
              exact hl
        · rw [if_neg h3]
          constructor
          · intro h
            exact absurd h (by simp)
          · intro ⟨hrej, hl⟩
            exfalso
            apply hrej
            right; right; right
            refine ⟨obj, ?_, ?_⟩
            · cases hl; rfl
            · left
              simpa using h3

/-- Claim C2: `validate_state_delta_json(text, max_chars, max_depth)` raises
a GuardrailError with a distinct, non-empty message exactly when the input
is empty/whitespace-only, exceeds max_chars, does not parse as a JSON
object at the top level, contains a non-string mapping key, nests deeper
than max_depth (root at depth 1), or contains a value of an unsupported
type; otherwise it returns the parsed object.  (The function is pure: it
returns a value and touches no other state.) -/
theorem C2_guardrail_validation :
    (∀ (t : String) (loads : Except String PyVal) (mc md : Nat) (v : PyVal),
      validate_state_delta_json t loads mc md = Except.ok v ↔
        (¬ guardReject t loads mc md ∧ loads = Except.ok v))
    ∧ (∀ (t : String) (loads : Except String PyVal) (mc md : Nat),
        guardReject t loads mc md →
          ∃ m, validate_state_delta_json t loads mc md = Except.error m ∧ m ≠ "")
    ∧ List.Pairwise (fun a b => a ≠ b)
        [msgEmpty, msgTooBig 8000, msgParseFail "Expecting value: line 1 column 1 (char 0)",
         msgNotObj, msgBadKey, msgDepth 8, msgBadType "set"] := by
  refine ⟨validate_ok_iff, ?_, by decide⟩
  intro t loads mc md hrej
  cases hv : validate_state_delta_json t loads mc md with
  | ok v =>
    have := (validate_ok_iff t loads mc md v).mp hv
    exact absurd hrej this.1
  | error m =>
    exact ⟨m, rfl, validate_error_ne_empty t loads mc md m hv⟩

/-- Witness for C2 at concrete inputs: whitespace-only input is rejected
with a non-empty message, and a well-formed one-key object is returned. -/
theorem C2_guardrail_validation_witness :
    (∃ m, validate_state_delta_json " " (Except.error "Expecting value: line 1 column 1 (char 0)") 8000 8
        = Except.error m ∧ m ≠ "")
    ∧ validate_state_delta_json "\x7b\x22a\x22: 1\x7d"
        (Except.ok (PyVal.dict [(PyKey.str "a", PyVal.int 1)])) 8000 8
        = Except.ok (PyVal.dict [(PyKey.str "a", PyVal.int 1)]) := by
  constructor
  · exact C2_guardrail_validation.2.1 _ _ 8000 8 (Or.inl (by decide))
  · apply (C2_guardrail_validation.1 _ _ 8000 8 _).mpr
    refine ⟨?_, rfl⟩
    intro h
    rcases h with h | h | h | h
    · exact absurd h (by decide)
    · exact absurd h (by decide)
    · obtain ⟨e, he⟩ := h
      exact absurd he (by simp)
    · obtain ⟨w, hw, hb⟩ := h
      obtain rfl : w = PyVal.dict [(PyKey.str "a", PyVal.int 1)] := by cases hw; rfl
      revert hb
      decide

/-- Claim C7: deep-merge semantics — when both the existing and the incoming
value at a key are mappings they are merged key-by-key recursively, and
otherwise the incoming value replaces the existing one outright; in
particular the three concrete examples of the claim hold, with a list value
replaced wholesale rather than concatenated. -/
theorem C7_deep_merge_semantics :
    (∀ base delta : PyVal, base.isDict = false ∨ delta.isDict = false →
      deepMerge base delta = delta)
    ∧ (∀ (b d : List (PyKey × PyVal)) (q : PyKey), (dictKeys d).Nodup →
        dictGet (mergeItems b d) q =
          match dictGet b q, dictGet d q with
          | some bv, some dv => some (deepMerge bv dv)
          | some bv, none => some bv
          | none, o => o)
    ∧ deepMerge (PyVal.dict [(PyKey.str "hp", PyVal.int 10), (PyKey.str "gold", PyVal.int 3)])
        (PyVal.dict [(PyKey.str "hp", PyVal.int 5)])
      = PyVal.dict [(PyKey.str "hp", PyVal.int 5), (PyKey.str "gold", PyVal.int 3)]
    ∧ deepMerge
        (PyVal.dict [(PyKey.str "inventory", PyVal.dict [(PyKey.str "shield", PyVal.int 1)])])
        (PyVal.dict [(PyKey.str "inventory", PyVal.dict [(PyKey.str "sword", PyVal.int 1)])])
      = PyVal.dict [(PyKey.str "inventory",
          PyVal.dict [(PyKey.str "shield", PyVal.int 1), (PyKey.str "sword", PyVal.int 1)])]
    ∧ deepMerge
        (PyVal.dict [(PyKey.str "items", PyVal.list [PyVal.int 1, PyVal.int 2])])
        (PyVal.dict [(PyKey.str "items", PyVal.list [PyVal.int 3])])
      = PyVal.dict [(PyKey.str "items", PyVal.list [PyVal.int 3])] := by
  refine ⟨?_, ?_, rfl, rfl, rfl⟩
  · intro base delta h
    cases base <;> cases delta <;> first
      | rfl
      | (exfalso
         rcases h with h | h <;> exact absurd h (by simp [PyVal.isDict]))
  · intro b d q hnd
    exact dictGet_mergeItems d hnd b q

/-- Witness for C7 at concrete inputs: a scalar base is replaced, and the
per-key characterization instantiated at the hp/gold example. -/
theorem C7_deep_merge_semantics_witness :
    deepMerge (PyVal.int 1) (PyVal.str "a") = PyVal.str "a"
    ∧ dictGet (mergeItems
        [(PyKey.str "hp", PyVal.int 10), (PyKey.str "gold", PyVal.int 3)]
        [(PyKey.str "hp", PyVal.int 5)]) (PyKey.str "hp")
      = some (deepMerge (PyVal.int 10) (PyVal.int 5)) := by
  constructor
  · exact C7_deep_merge_semantics.1 (PyVal.int 1) (PyVal.str "a") (Or.inl rfl)
  · rw [C7_deep_merge_semantics.2.1 _ _ _ (by decide)]
    rfl

/-- Claim C10 (implicit): deep-merge never deletes keys — for every pair of
mappings, the key set of the merge is the union of the two key sets (and
since the statement quantifies over all pairs of mappings, it applies at
every recursive level where both sides are mappings). -/
theorem C10_merge_keys_union :
    ∀ (b d : List (PyKey × PyVal)) (q : PyKey),
      deepMerge (PyVal.dict b) (PyVal.dict d) = PyVal.dict (mergeItems b d)
      ∧ (q ∈ dictKeys (mergeItems b d) ↔ q ∈ dictKeys b ∨ q ∈ dictKeys d) := by
  intro b d q
  constructor
  · rw [deepMerge]
  · exact mem_dictKeys_mergeItems d b q

/-- Claim C8 as stated is false on the code: `change_reject` performs an
unconditional status UPDATE, so a request already in the terminal state
`applied` is moved to `rejected` by a subsequent reject operation. -/
theorem C8_counterexample :
    (runChangeOp ChangeOp.rejectOp
        (⟨"state_delta", "\x7b\x7d", ReqStatus.applied, none⟩, PyVal.dict [])).1.status
      = ReqStatus.rejected
    ∧ ReqStatus.rejected ≠ ReqStatus.applied := by
  constructor
  · rfl
  · decide

/-- Claim C8 as amended: the status never returns to pending — every apply
or reject operation leaves the request in applied or rejected, so after any
non-empty sequence of operations the status is not pending.  (Terminal
states are, however, not protected from later operations: see the
counterexample.) -/
theorem C8_lifecycle_amended :
    (∀ (r : StateChangeRequest) (sheet : PyVal) (op : ChangeOp),
      (runChangeOp op (r, sheet)).1.status = ReqStatus.applied
      ∨ (runChangeOp op (r, sheet)).1.status = ReqStatus.rejected)
    ∧ (∀ (ops : List ChangeOp) (r : StateChangeRequest) (sheet : PyVal),
        ops ≠ [] → (runChangeOps ops (r, sheet)).1.status ≠ ReqStatus.pending) := by
  have hstep : ∀ (s : StateChangeRequest × PyVal) (op : ChangeOp),
      (runChangeOp op s).1.status = ReqStatus.applied
      ∨ (runChangeOp op s).1.status = ReqStatus.rejected := by
    intro s op
    cases op with
    | rejectOp =>
      right
      rfl
    | applyOp deltaLoads =>
      show (change_apply s.1 deltaLoads s.2).1.status = _ ∨
        (change_apply s.1 deltaLoads s.2).1.status = _
      unfold change_apply
      by_cases hk : s.1.kind ≠ "state_delta"
      · rw [if_pos hk]
        right
        rfl
      · rw [if_neg hk]
        cases validate_state_delta_json (pyStrip s.1.delta_json_text) deltaLoads 8000 8 with
        | error e =>
          right
          rfl
        | ok delta =>
          left
          rfl
  have hkeep : ∀ (ops : List ChangeOp) (s : StateChangeRequest × PyVal),
      s.1.status ≠ ReqStatus.pending →
      (runChangeOps ops s).1.status ≠ ReqStatus.pending := by
    intro ops
    induction ops with
    | nil =>
      intro s hs
      exact hs
    | cons op rest ih =>
      intro s hs
      show (runChangeOps rest (runChangeOp op s)).1.status ≠ ReqStatus.pending
      apply ih
      rcases hstep s op with h | h <;> rw [h] <;> simp
  constructor
  · intro r sheet op
    exact hstep (r, sheet) op
  · intro ops r sheet hne
    cases ops with
    | nil => exact absurd rfl hne
    | cons op rest =>
      show (runChangeOps rest (runChangeOp op (r, sheet))).1.status ≠ ReqStatus.pending
      apply hkeep
      rcases hstep (r, sheet) op with h | h <;> rw [h] <;> simp

/-- Witness for C8's amended theorem: a single reject on a pending request
leaves a non-pending status. -/
theorem C8_lifecycle_amended_witness :
    (runChangeOps [ChangeOp.rejectOp]
        (⟨"state_delta", "\x7b\x7d", ReqStatus.pending, none⟩, PyVal.dict [])).1.status
      ≠ ReqStatus.pending := by
  exact C8_lifecycle_amended.2 [ChangeOp.rejectOp] _ _ (by simp)

/- ===================== Choice-normalization lemmas ===================== -/

theorem lstripL_cons_drop (cs : List Char) (c : Char) (t : List Char)
    (h : cs.contains c = true) : lstripL cs (c :: t) = lstripL cs t := by
  unfold lstripL
  rw [List.dropWhile_cons, if_pos h]

theorem lstripL_cons_stop (cs : List Char) (c : Char) (t : List Char)
    (h : cs.contains c = false) : lstripL cs (c :: t) = c :: t := by
  unfold lstripL
  rw [List.dropWhile_cons, if_neg]
  rw [h]
  simp

theorem lstripL_append_all (cs ds k : List Char)
    (h : ∀ c ∈ ds, cs.contains c = true) :
    lstripL cs (ds ++ k) = lstripL cs k := by
  induction ds with
  | nil => rfl
  | cons d t ih =>
    rw [List.cons_append, lstripL_cons_drop cs d _ (h d (by simp))]
    exact ih (fun c hc => h c (by simp [hc]))

theorem stripWs_eq_self_of (l : List Char)
    (hhead : ∀ c, l.head? = some c → pyIsSpace c = false)
    (hlast : dropWhileRight pyIsSpace l = l) : stripWs l = l := by
  unfold stripWs
  cases l with
  | nil => rfl
  | cons c t =>
    rw [dropWhile_head_false pyIsSpace c t (hhead c rfl)]
    exact hlast

theorem stripWs_space_then (xs : List Char)
    (hL : xs.dropWhile pyIsSpace = xs) (hR : dropWhileRight pyIsSpace xs = xs) :
    stripWs (' ' :: xs) = xs := by
  unfold stripWs
  rw [List.dropWhile_cons, if_pos (by decide : pyIsSpace ' ' = true), hL, hR]

theorem strip_parts_of_pyStrip_self (x : String) (hx : pyStrip x = x) :
    x.toList.dropWhile pyIsSpace = x.toList
    ∧ dropWhileRight pyIsSpace x.toList = x.toList := by
  have hl : stripWs x.toList = x.toList := by
    have := congrArg String.toList hx
    simpa [pyStrip] using this
  exact stripWs_self_split x.toList hl

/-- Evaluation of one choices-loop iteration on a numbered line
`ds ++ mid :: ' ' :: xs` where `ds` is a non-empty digit run, `mid` is `.`
or `)`, and `xs` is the non-empty, already-stripped choice text. -/
theorem normChoiceLineL_numbered (ds : List Char) (hne_ds : ds ≠ [])
    (hds : ∀ c ∈ ds, pyIsDigit c = true) (mid : Char)
    (hmid : mid = '.' ∨ mid = ')') (xs : List Char)
    (hL : xs.dropWhile pyIsSpace = xs)
    (hR : dropWhileRight pyIsSpace xs = xs) (hne : xs ≠ []) :
    normChoiceLineL (ds ++ mid :: ' ' :: xs) = some xs := by
  obtain ⟨d, ds', rfl⟩ : ∃ d ds', ds = d :: ds' := by
    cases ds with
    | nil => exact absurd rfl hne_ds
    | cons d ds' => exact ⟨d, ds', rfl⟩
  have hd : pyIsDigit d = true := hds d (by simp)
  have hstrip : stripWs ((d :: ds') ++ mid :: ' ' :: xs)
      = (d :: ds') ++ mid :: ' ' :: xs := by
    apply stripWs_eq_self_of
    · intro c hc
      simp only [List.cons_append, List.head?_cons, Option.some.injEq] at hc
      rw [← hc]
      exact digit_not_space d hd
    · have := dropWhileRight_append_of_self pyIsSpace xs hR hne
        (d :: (ds' ++ [mid, ' ']))
      simpa using this
  have hdigits : lstripL asciiDigits ((d :: ds') ++ mid :: ' ' :: xs)
      = mid :: ' ' :: xs := by
    rw [lstripL_append_all asciiDigits (d :: ds') _
      (fun c hc => digit_contains c (hds c hc))]
    apply lstripL_cons_stop
    rcases hmid with h | h <;> rw [h] <;> decide
  have hTail : stripWs (lstripL [')'] (lstripL ['.']
      (lstripL asciiDigits ((d :: ds') ++ mid :: ' ' :: xs)))) = xs := by
    rw [hdigits]
    rcases hmid with h | h
    · rw [h, lstripL_cons_drop ['.'] '.' _ (by decide),
        lstripL_cons_stop ['.'] ' ' _ (by decide),
        lstripL_cons_stop [')'] ' ' _ (by decide)]
      exact stripWs_space_then xs hL hR
    · rw [h, lstripL_cons_stop ['.'] ')' _ (by decide),
        lstripL_cons_drop [')'] ')' _ (by decide),
        lstripL_cons_stop [')'] ' ' _ (by decide)]
      exact stripWs_space_then xs hL hR
  have hdash : ¬d = '-' := digit_ne_dash d hd
  simp only [List.cons_append] at hstrip hTail ⊢
  simp only [normChoiceLineL]
  rw [hstrip]
  have hdash2 : ¬((d :: (ds' ++ mid :: ' ' :: xs)).head? = some '-') := by
    simp [hdash]
  have hcond : 2 ≤ (d :: (ds' ++ mid :: ' ' :: xs)).length ∧
      (d :: (ds' ++ mid :: ' ' :: xs)).head?.elim false pyIsDigit = true := by
    constructor
    · simp
      omega
    · simp [hd]
  simp only [if_neg hdash2, if_pos hcond]
  rw [hTail]
  simp only [if_neg hne]
  rw [if_neg (by simp : ¬(d :: (ds' ++ mid :: ' ' :: xs)) = [])]

/-- Evaluation of one choices-loop iteration on a dash line `'-' ' ' xs`
where `xs` is the non-empty, already-stripped choice text not subject to the
numbering rule. -/
theorem normChoiceLineL_dash (xs : List Char)
    (hL : xs.dropWhile pyIsSpace = xs)
    (hR : dropWhileRight pyIsSpace xs = xs) (hne : xs ≠ [])
    (hnodig : ¬(2 ≤ xs.length ∧ xs.head?.elim false pyIsDigit = true)) :
    normChoiceLineL ('-' :: ' ' :: xs) = some xs := by
  have hstrip : stripWs ('-' :: ' ' :: xs) = '-' :: ' ' :: xs := by
    apply stripWs_eq_self_of
    · intro c hc
      simp only [List.head?_cons, Option.some.injEq] at hc
      rw [← hc]
      decide
    · have := dropWhileRight_append_of_self pyIsSpace xs hR hne ['-', ' ']
      simpa using this
  have hlstrip : stripWs (lstripL ['-'] ('-' :: ' ' :: xs)) = xs := by
    rw [lstripL_cons_drop ['-'] '-' _ (by decide),
      lstripL_cons_stop ['-'] ' ' _ (by decide)]
    exact stripWs_space_then xs hL hR
  simp only [normChoiceLineL]
  rw [hstrip]
  rw [if_neg (by simp : ¬('-' :: ' ' :: xs) = [])]
  rw [if_pos (by simp : ('-' :: ' ' :: xs).head? = some '-')]
  rw [hlstrip]
  rw [if_neg hnodig]
  rw [ite_self, if_neg hne]

/-- A whole line that strips to nothing is dropped by the choices loop. -/
theorem normChoiceLineL_blank (l : List Char) (h : stripWs l = []) :
    normChoiceLineL l = none := by
  simp only [normChoiceLineL]
  rw [h]
  rw [if_pos rfl]

theorem normalizeChoices_single_line (line : String) (hne : line ≠ "")
    (hnl : '\n' ∉ line.toList) (r : List Char)
    (h : normChoiceLineL line.toList = some r) :
    normalizeChoices line = [String.mk r] := by
  have hline : normChoiceLine line = some (String.mk r) := by
    unfold normChoiceLine
    rw [h]
    rfl
  unfold normalizeChoices
  rw [pySplitlines_single line hne hnl]
  simp [hline]

/-- Claim C9: for every non-empty choice text x (stripped, single-line, and
for the dash form not itself subject to the numbering rule) and every
non-empty ASCII digit run N, the lines "- x", "N. x" and "N) x" in the
CHOICES section each yield exactly the choice x; whitespace-only lines (and
a bare dash) are dropped. -/
theorem C9_choice_normalization :
    ∀ x : String, pyStrip x = x → x ≠ "" → '\n' ∉ x.toList →
      ((¬(2 ≤ x.length ∧ x.toList.head?.elim false pyIsDigit = true)) →
        normalizeChoices ("- " ++ x) = [x])
      ∧ (∀ ds : List Char, ds ≠ [] → (∀ c ∈ ds, pyIsDigit c = true) →
          normalizeChoices (String.mk ds ++ ". " ++ x) = [x]
          ∧ normalizeChoices (String.mk ds ++ ") " ++ x) = [x])
      ∧ (∀ l : String, pyStrip l = "" → '\n' ∉ l.toList → normalizeChoices l = [])
      ∧ normalizeChoices "-" = [] := by
  intro x hx hne hnl
  obtain ⟨hL, hR⟩ := strip_parts_of_pyStrip_self x hx
  have hxs_ne : x.toList ≠ [] := by
    intro hc
    exact hne (str_eq_empty_iff x |>.mpr hc)
  refine ⟨?_, ?_, ?_, by decide⟩
  · intro hnodig
    have htl : ("- " ++ x).toList = '-' :: ' ' :: x.toList := by
      rw [strToList_append]
      rfl
    have hlen : x.length = x.toList.length := rfl
    have heval := normChoiceLineL_dash x.toList hL hR hxs_ne
      (by rw [← hlen]; exact hnodig)
    have := normalizeChoices_single_line ("- " ++ x)
      (by
        intro hc
        have h2 := congrArg String.toList hc
        rw [htl] at h2
        exact absurd h2 (by simp))
      (by
        rw [htl]
        simp only [List.mem_cons]
        push_neg
        exact ⟨by decide, by decide, hnl⟩)
      x.toList (by rw [htl]; exact heval)
    rw [strMk_toList] at this
    exact this
  · intro ds hds_ne hds
    have hnl_ds : '\n' ∉ ds := fun h => digit_ne_nl '\n' (hds '\n' h) rfl
    constructor
    · have htl : (String.mk ds ++ ". " ++ x).toList
          = ds ++ '.' :: ' ' :: x.toList := by
        rw [strToList_append, strToList_append]
        simp
      have heval := normChoiceLineL_numbered ds hds_ne hds '.' (Or.inl rfl)
        x.toList hL hR hxs_ne
      have := normalizeChoices_single_line (String.mk ds ++ ". " ++ x)
        (by
          intro hc
          have h2 := congrArg String.toList hc
          rw [htl] at h2
          exact absurd h2 (by simp))
        (by
          rw [htl]
          simp only [List.mem_append, List.mem_cons]
          push_neg
          exact ⟨hnl_ds, by decide, by decide, hnl⟩)
        x.toList (by rw [htl]; exact heval)
      rw [strMk_toList] at this
      exact this
    · have htl : (String.mk ds ++ ") " ++ x).toList
          = ds ++ ')' :: ' ' :: x.toList := by
        rw [strToList_append, strToList_append]
        simp
      have heval := normChoiceLineL_numbered ds hds_ne hds ')' (Or.inr rfl)
        x.toList hL hR hxs_ne
      have := normalizeChoices_single_line (String.mk ds ++ ") " ++ x)
        (by
          intro hc
          have h2 := congrArg String.toList hc
          rw [htl] at h2
          exact absurd h2 (by simp))
        (by
          rw [htl]
          simp only [List.mem_append, List.mem_cons]
          push_neg
          exact ⟨hnl_ds, by decide, by decide, hnl⟩)
        x.toList (by rw [htl]; exact heval)
      rw [strMk_toList] at this
      exact this
  · intro l hl hlnl
    by_cases hle : l = ""
    · rw [hle]
      decide
    · have hblank : normChoiceLineL l.toList = none := by
        apply normChoiceLineL_blank
        have := congrArg String.toList hl
        simpa [pyStrip] using this
      have hline : normChoiceLine l = none := by
        unfold normChoiceLine
        rw [hblank]
        rfl
      unfold normalizeChoices
      rw [pySplitlines_single l hle hlnl]
      simp [hline]

/-- Witness for C9 at concrete inputs: the three forms of the unit test. -/
theorem C9_choice_normalization_witness :
    normalizeChoices "- go west" = ["go west"]
    ∧ normalizeChoices "12. go west" = ["go west"]
    ∧ normalizeChoices "3) go west" = ["go west"]
    ∧ normalizeChoices "   " = [] := by
  have h := C9_choice_normalization "go west" (by decide) (by decide) (by decide)
  refine ⟨?_, ?_, ?_, ?_⟩
  · have := h.1 (by decide)
    exact this
  · have := (h.2.1 ['1', '2'] (by decide) (by decide)).1
    exact this
  · have := (h.2.1 ['3'] (by decide) (by decide)).2
    exact this
  · exact h.2.2.1 "   " (by decide) (by decide)

/- ===================== Parser scan lemmas ===================== -/

theorem ParseBuf.get_push (b : ParseBuf) (g : SecField) (l : String)
    (f : SecField) :
    (b.push g l).get f = if g = f then b.get f ++ [l] else b.get f := by
  cases g <;> cases f <;> simp [ParseBuf.push, ParseBuf.get]

theorem ParseBuf.get_empty (f : SecField) : ParseBuf.empty.get f = [] := by
  cases f <;> rfl

theorem scanLines_spec (lines : List String)
    (hN : ∀ l ∈ lines, '\n' ∉ l.toList) :
    ∀ (cur : Option SecField) (buf : ParseBuf) (found : Bool),
      (∀ f, (scanLines lines cur buf found).1.get f
        = buf.get f ++ sectionLinesBy recogStrip lines cur f)
      ∧ (scanLines lines cur buf found).2
        = (found || lines.any (fun l => (recogStrip l).isSome)) := by
  induction lines with
  | nil =>
    intro cur buf found
    constructor
    · intro f
      simp [scanLines, sectionLinesBy]
    · simp [scanLines]
  | cons raw rest ih =>
    intro cur buf found
    have hraw : pyRstrip ['\n'] raw = raw :=
      pyRstrip_nl_of_no_nl raw (hN raw (by simp))
    have hrest : ∀ l ∈ rest, '\n' ∉ l.toList :=
      fun l hl => hN l (by simp [hl])
    have ihr := ih hrest
    simp only [scanLines, hraw]
    cases hk : keyOf (pyStrip raw) with
    | some g =>
      have hrecog : recogStrip raw = some g := hk
      constructor
      · intro f
        rw [(ihr (some g) buf true).1 f]
        simp only [sectionLinesBy, hrecog]
      · rw [(ihr (some g) buf true).2]
        simp [hrecog]
    | none =>
      have hrecog : recogStrip raw = none := hk
      cases cur with
      | none =>
        constructor
        · intro f
          rw [(ihr none buf found).1 f]
          simp only [sectionLinesBy, hrecog]
          simp
        · rw [(ihr none buf found).2]
          simp [hrecog]
      | some g =>
        constructor
        · intro f
          rw [(ihr (some g) (buf.push g raw) found).1 f]
          rw [ParseBuf.get_push]
          simp only [sectionLinesBy, hrecog]
          by_cases hgf : g = f
          · subst hgf
            rw [if_pos rfl, if_pos rfl]
            simp
          · rw [if_neg hgf, if_neg (fun hc : some g = some f => hgf (by
              cases hc
              rfl))]
            simp
        · rw [(ihr (some g) (buf.push g raw) found).2]
          simp [hrecog]

theorem parseLines_eq_spec (lines : List String)
    (hN : ∀ l ∈ lines, '\n' ∉ l.toList) :
    parseLines lines =
      (if lines.all (fun l => (recogStrip l).isNone) then none
       else
         some
           { narration :=
               pyStrip (joinNl (sectionLinesBy recogStrip lines none SecField.narration))
             choices := normalizeChoices
               (pyStrip (joinNl (sectionLinesBy recogStrip lines none SecField.choices)))
             dm_notes :=
               pyStrip (joinNl (sectionLinesBy recogStrip lines none SecField.dmNotes))
             memory_suggestions :=
               pyStrip (joinNl (sectionLinesBy recogStrip lines none SecField.memory))
             state_delta_json :=
               pyStrip (joinNl (sectionLinesBy recogStrip lines none SecField.stateDelta))
             thread_updates_json :=
               pyStrip (joinNl (sectionLinesBy recogStrip lines none SecField.threadUpdates)) }) := by
  have hs := scanLines_spec lines hN none ParseBuf.empty false
  have hget : ∀ f, (scanLines lines none ParseBuf.empty false).1.get f
      = sectionLinesBy recogStrip lines none f := by
    intro f
    rw [hs.1 f, ParseBuf.get_empty]
    rfl
  unfold parseLines
  dsimp only
  have hfound : (scanLines lines none ParseBuf.empty false).2
      = lines.any (fun l => (recogStrip l).isSome) := by
    rw [hs.2]
    simp
  rw [hfound]
  by_cases hall : lines.all (fun l => (recogStrip l).isNone) = true
  · rw [if_pos hall]
    have hany : lines.any (fun l => (recogStrip l).isSome) = false := by
      rw [List.any_eq_false]
      intro l hl
      have := (List.all_eq_true.mp hall) l hl
      simp only [Option.isNone_iff_eq_none] at this
      simp [this]
    rw [hany]
    simp
  · rw [if_neg hall]
    have hany : lines.any (fun l => (recogStrip l).isSome) = true := by
      rw [List.any_eq_true]
      rw [List.all_eq_true] at hall
      push_neg at hall
      obtain ⟨l, hl, hnone⟩ := hall
      refine ⟨l, hl, ?_⟩
      cases hr : recogStrip l with
      | none =>
        rw [hr] at hnone
        exact absurd rfl hnone
      | some g => simp
    rw [hany]
    simp only [if_true]
    congr 1
    rw [show (scanLines lines none ParseBuf.empty false).1.narration
      = (scanLines lines none ParseBuf.empty false).1.get SecField.narration from rfl,
      show (scanLines lines none ParseBuf.empty false).1.choices
      = (scanLines lines none ParseBuf.empty false).1.get SecField.choices from rfl,
      show (scanLines lines none ParseBuf.empty false).1.dmNotes
      = (scanLines lines none ParseBuf.empty false).1.get SecField.dmNotes from rfl,
      show (scanLines lines none ParseBuf.empty false).1.memory
      = (scanLines lines none ParseBuf.empty false).1.get SecField.memory from rfl,
      show (scanLines lines none ParseBuf.empty false).1.stateDelta
      = (scanLines lines none ParseBuf.empty false).1.get SecField.stateDelta from rfl,
      show (scanLines lines none ParseBuf.empty false).1.threadUpdates
      = (scanLines lines none ParseBuf.empty false).1.get SecField.threadUpdates from rfl]
    rw [hget, hget, hget, hget, hget, hget]

/-- Claim C1 as stated is false on the code: in `cexParseText` every reserved
token appears as an exact line, yet the parse differs from the parser the
claim describes (exact marker recognition, exact content recovery), because
the code recognizes the whitespace-padded line "  ===CHOICES===" as a marker
(`line.strip() in keys`) and strips each section's content. -/
theorem C1_counterexample :
    (∀ tok ∈ reservedTokens, tok ∈ pySplitlines cexParseText)
    ∧ parseByDelimiters cexParseText ≠ strictSpecParseExact cexParseText := by
  constructor
  · decide
  · decide

/-- Claim C1 as amended: for every input text, the strict delimiter parse
equals the claim-side parser in which a line is a section marker exactly
when it equals a reserved token after stripping surrounding whitespace,
lines before the first marker are discarded, content between two markers
belongs to the first marker's section and is recovered modulo
leading/trailing whitespace stripping (and choice-list normalization),
absent sections becoming empty strings, and no-marker inputs yielding no
strict parse. -/
theorem C1_strict_parse_amended :
    ∀ t : String, parseByDelimiters t = strictSpecParse t := by
  intro t
  unfold parseByDelimiters strictSpecParse
  exact parseLines_eq_spec (pySplitlines t) (pySplitlines_mem_no_nl t)

/-- Claim C4 as stated is false on the code: with both a campaign and a
chapter summary present (non-empty), the assembled block sequence puts the
chapter block first — the code prepends the campaign block and then prepends
the chapter block in front of it — while the claim puts the campaign block
first. -/
theorem C4_counterexample :
    storyBlocks cexDbStory 1 12 = ["【最近章节摘要】\nH", "【战役总摘要】\nC"]
    ∧ storyBlocksClaim cexDbStory 1 12 = ["【战役总摘要】\nC", "【最近章节摘要】\nH"]
    ∧ storyBlocks cexDbStory 1 12 ≠ storyBlocksClaim cexDbStory 1 12 := by
  refine ⟨by decide, by decide, by decide⟩

/-- Claim C4 as amended: for every state, the story-memory block sequence is
the latest chapter-level summary first (when present with non-empty text, as
a standalone prefixed block), then the latest campaign-level summary (when
present with non-empty text, prefixed similarly), then the historyLimit most
recent journal entries rendered in chronological (oldest-first) order. -/
theorem C4_story_memory_order_amended :
    ∀ (db : Db) (sid historyLimit : Nat),
      storyBlocks db sid historyLimit = storyBlocksAmended db sid historyLimit := by
  intro db sid n
  unfold storyBlocks storyBlocksAmended summaryBlockOpt
  cases hc : get_latest_summary db sid "campaign" with
  | none =>
    cases hh : get_latest_summary db sid "chapter" with
    | none => simp
    | some hs =>
      by_cases hnz : pyStrip hs.summary ≠ ""
      · simp [hnz]
      · simp at hnz
        simp [hnz]
  | some cs =>
    cases hh : get_latest_summary db sid "chapter" with
    | none =>
      by_cases hnz : pyStrip cs.summary ≠ ""
      · simp [hnz]
      · simp at hnz
        simp [hnz]
    | some hs =>
      by_cases hnz : pyStrip cs.summary ≠ ""
      · by_cases hnz2 : pyStrip hs.summary ≠ ""
        · simp [hnz, hnz2]
        · simp at hnz2
          simp [hnz, hnz2]
      · simp at hnz
        by_cases hnz2 : pyStrip hs.summary ≠ ""
        · simp [hnz, hnz2]
        · simp at hnz2
          simp [hnz, hnz2]

/- ===================== Rollup support lemmas ===================== -/

theorem chapterRows_insert_chapter (db : Db) (sid : Nat) (s e : Int)
    (txt : String) :
    chapterRows (insert_summary db sid "chapter" s e txt) sid
      = chapterRows db sid
        ++ [⟨db.nextSummaryId, sid, "chapter", s, e, txt⟩] := by
  unfold chapterRows insert_summary
  rw [List.filter_append]
  congr 1
  simp

theorem chapterRows_insert_campaign (db : Db) (sid sid2 : Nat) (s e : Int)
    (txt : String) :
    chapterRows (insert_summary db sid2 "campaign" s e txt) sid
      = chapterRows db sid := by
  unfold chapterRows insert_summary
  rw [List.filter_append]
  simp

theorem chapterRows_delete_campaign (db : Db) (sid sid2 : Nat) :
    chapterRows (delete_campaign_summaries db sid2) sid = chapterRows db sid := by
  unfold chapterRows delete_campaign_summaries
  rw [List.filter_filter]
  congr 1
  funext r
  by_cases h1 : r.session_id = sid ∧ r.level = "chapter"
  · have h2 : ¬(r.session_id = sid2 ∧ r.level = "campaign") := by
      intro hc
      rw [h1.2] at hc
      exact absurd hc.2 (by decide)
    simp [h1, h2]
  · simp [h1]

theorem campaignRows_insert_chapter (db : Db) (sid sid2 : Nat) (s e : Int)
    (txt : String) :
    campaignRows (insert_summary db sid2 "chapter" s e txt) sid
      = campaignRows db sid := by
  unfold campaignRows insert_summary
  rw [List.filter_append]
  simp

theorem campaignRows_insert_campaign (db : Db) (sid : Nat) (s e : Int)
    (txt : String) :
    campaignRows (insert_summary db sid "campaign" s e txt) sid
      = campaignRows db sid
        ++ [⟨db.nextSummaryId, sid, "campaign", s, e, txt⟩] := by
  unfold campaignRows insert_summary
  rw [List.filter_append]
  congr 1
  simp

theorem campaignRows_delete_campaign (db : Db) (sid : Nat) :
    campaignRows (delete_campaign_summaries db sid) sid = [] := by
  unfold campaignRows delete_campaign_summaries
  rw [List.filter_filter]
  rw [List.filter_eq_nil_iff]
  intro r _
  by_cases h : r.session_id = sid ∧ r.level = "campaign"
  · simp [h]
  · simp [h]

theorem journal_insert_summary (db : Db) (sid : Nat) (lvl : String)
    (s e : Int) (txt : String) :
    (insert_summary db sid lvl s e txt).journal = db.journal := rfl

theorem journal_delete_campaign (db : Db) (sid : Nat) :
    (delete_campaign_summaries db sid).journal = db.journal := rfl

theorem foldl_max_le_init (l : List SummaryRow) (a : Int) :
    a ≤ l.foldl (fun m r => max m r.end_turn) a := by
  induction l generalizing a with
  | nil => simp
  | cons r t ih =>
    simp only [List.foldl_cons]
    have := ih (max a r.end_turn)
    omega

theorem progress_ge_neg_one (db : Db) (sid : Nat) :
    -1 ≤ get_chapter_rollup_progress db sid := by
  unfold get_chapter_rollup_progress
  exact foldl_max_le_init _ _

theorem foldl_max_append_one (l : List SummaryRow) (r : SummaryRow) (a : Int) :
    (l ++ [r]).foldl (fun m x => max m x.end_turn) a
      = max (l.foldl (fun m x => max m x.end_turn) a) r.end_turn := by
  rw [List.foldl_append]
  rfl

theorem foldl_max_all_le (l : List SummaryRow) (a b : Int) (ha : a ≤ b)
    (h : ∀ r ∈ l, r.end_turn ≤ b) :
    l.foldl (fun m x => max m x.end_turn) a ≤ b := by
  induction l generalizing a with
  | nil => simpa
  | cons r t ih =>
    simp only [List.foldl_cons]
    apply ih (max a r.end_turn)
    · have := h r (by simp)
      omega
    · intro x hx
      exact h x (by simp [hx])

theorem journalWindow_perm (db : Db) (sid : Nat) (lo hi : Int) :
    (journalWindow db sid lo hi).Perm
      (db.journal.filterMap (windowRow sid lo hi)) := by
  unfold journalWindow
  exact List.perm_insertionSort wle _

theorem journalWindow_sorted (db : Db) (sid : Nat) (lo hi : Int) :
    List.Sorted wle (journalWindow db sid lo hi) := by
  unfold journalWindow
  exact List.sorted_insertionSort wle _

theorem windowRow_some_bounds (sid : Nat) (lo hi : Int) (j : JournalRow)
    (w : WRow) (h : windowRow sid lo hi j = some w) :
    lo ≤ w.turn_index ∧ w.turn_index ≤ hi := by
  unfold windowRow at h
  cases hti : j.turn_index with
  | none =>
    rw [hti] at h
    exact absurd h (by simp)
  | some ti =>
    rw [hti] at h
    dsimp only at h
    by_cases hc : j.session_id = sid ∧ lo ≤ ti ∧ ti ≤ hi
    · rw [if_pos hc] at h
      have hw : w = ⟨ti, j.id, j.summary⟩ := by cases h; rfl
      rw [hw]
      exact ⟨hc.2.1, hc.2.2⟩
    · rw [if_neg hc] at h
      exact absurd h (by simp)

theorem journalWindow_mem_bounds (db : Db) (sid : Nat) (lo hi : Int)
    (w : WRow) (h : w ∈ journalWindow db sid lo hi) :
    lo ≤ w.turn_index ∧ w.turn_index ≤ hi := by
  have hmem := (journalWindow_perm db sid lo hi).mem_iff.mp h
  obtain ⟨j, _, hj⟩ := List.mem_filterMap.mp hmem
  exact windowRow_some_bounds sid lo hi j w hj

theorem getLast?_cons_getLastD (c0 : WRow) (crest : List WRow) :
    (c0 :: crest).getLast? = some (crest.getLastD c0) := by
  induction crest generalizing c0 with
  | nil => rfl
  | cons e es ih =>
    rw [List.getLast?_cons_cons, ih e, List.getLastD_cons]

theorem wle_ti (a b : WRow) (h : wle a b) : a.turn_index ≤ b.turn_index := by
  unfold wle at h
  omega

theorem sorted_mem_ti_le_getLastD (c0 : WRow) (crest : List WRow)
    (hs : List.Sorted wle (c0 :: crest)) :
    ∀ w ∈ c0 :: crest, w.turn_index ≤ (crest.getLastD c0).turn_index := by
  induction crest generalizing c0 with
  | nil =>
    intro w hw
    simp at hw
    rw [hw]
    rfl
  | cons e es ih =>
    intro w hw
    have hs2 : List.Sorted wle (e :: es) := hs.of_cons
    have hrel : ∀ b ∈ e :: es, wle c0 b := fun b hb =>
      (List.sorted_cons.mp hs).1 b hb
    rw [List.getLastD_cons]
    rcases List.mem_cons.mp hw with hw0 | hwrest
    · subst hw0
      have hlast_mem : es.getLastD e ∈ e :: es := by
        have h1 := getLast?_cons_getLastD e es
        exact List.mem_of_mem_getLast? h1
      exact wle_ti _ _ (hrel _ hlast_mem)
    · exact ih e hs2 w hwrest

theorem countP_take_all (l : List WRow) (n : Nat) (p : WRow → Bool)
    (h : ∀ w ∈ l.take n, p w = true) :
    (l.take n).length ≤ List.countP p l := by
  conv_rhs => rw [← List.take_append_drop n l]
  rw [List.countP_append]
  rw [List.countP_eq_length.mpr h]
  omega

theorem filterMap_window_left (journal : List JournalRow) (sid : Nat)
    (lo m hi : Int) (hm : m ≤ hi) :
    (journal.filterMap (windowRow sid lo m)).length
      = List.countP (fun w => decide (w.turn_index ≤ m))
          (journal.filterMap (windowRow sid lo hi)) := by
  induction journal with
  | nil => rfl
  | cons j rest ih =>
    rw [List.filterMap_cons, List.filterMap_cons]
    cases hti : j.turn_index with
    | none =>
      simp only [windowRow, hti]
      exact ih
    | some ti =>
      by_cases hsid : j.session_id = sid
      · by_cases h2 : lo ≤ ti
        · by_cases h3 : ti ≤ m
          · have hin1 : windowRow sid lo m j = some ⟨ti, j.id, j.summary⟩ := by
              simp only [windowRow, hti]
              rw [if_pos ⟨hsid, h2, h3⟩]
            have hin2 : windowRow sid lo hi j = some ⟨ti, j.id, j.summary⟩ := by
              simp only [windowRow, hti]
              rw [if_pos ⟨hsid, h2, by omega⟩]
            rw [hin1, hin2, List.length_cons, List.countP_cons, ih]
            simp [h3]
          · have hout1 : windowRow sid lo m j = none := by
              simp only [windowRow, hti]
              rw [if_neg (fun hc => h3 hc.2.2)]
            rw [hout1]
            by_cases h4 : ti ≤ hi
            · have hin2 : windowRow sid lo hi j = some ⟨ti, j.id, j.summary⟩ := by
                simp only [windowRow, hti]
                rw [if_pos ⟨hsid, h2, h4⟩]
              rw [hin2, List.countP_cons, ih]
              simp [h3]
            · have hout2 : windowRow sid lo hi j = none := by
                simp only [windowRow, hti]
                rw [if_neg (fun hc => h4 hc.2.2)]
              rw [hout2]
              exact ih
        · have hout1 : windowRow sid lo m j = none := by
            simp only [windowRow, hti]
            rw [if_neg (fun hc => h2 hc.2.1)]
          have hout2 : windowRow sid lo hi j = none := by
            simp only [windowRow, hti]
            rw [if_neg (fun hc => h2 hc.2.1)]
          rw [hout1, hout2]
          exact ih
      · have hout1 : windowRow sid lo m j = none := by
          simp only [windowRow, hti]
          rw [if_neg (fun hc => hsid hc.1)]
        have hout2 : windowRow sid lo hi j = none := by
          simp only [windowRow, hti]
          rw [if_neg (fun hc => hsid hc.1)]
        rw [hout1, hout2]
        exact ih

theorem filterMap_window_right (journal : List JournalRow) (sid : Nat)
    (lo m hi : Int) (hlo : lo ≤ m + 1) :
    (journal.filterMap (windowRow sid (m + 1) hi)).length
      = List.countP (fun w => decide (m < w.turn_index))
          (journal.filterMap (windowRow sid lo hi)) := by
  induction journal with
  | nil => rfl
  | cons j rest ih =>
    rw [List.filterMap_cons, List.filterMap_cons]
    cases hti : j.turn_index with
    | none =>
      simp only [windowRow, hti]
      exact ih
    | some ti =>
      by_cases hsid : j.session_id = sid
      · by_cases h4 : ti ≤ hi
        · by_cases h3 : m + 1 ≤ ti
          · have hin1 : windowRow sid (m + 1) hi j = some ⟨ti, j.id, j.summary⟩ := by
              simp only [windowRow, hti]
              rw [if_pos ⟨hsid, h3, h4⟩]
            have hin2 : windowRow sid lo hi j = some ⟨ti, j.id, j.summary⟩ := by
              simp only [windowRow, hti]
              rw [if_pos ⟨hsid, by omega, h4⟩]
            rw [hin1, hin2, List.length_cons, List.countP_cons, ih]
            have : m < ti := by omega
            simp [this]
          · have hout1 : windowRow sid (m + 1) hi j = none := by
              simp only [windowRow, hti]
              rw [if_neg (fun hc => h3 hc.2.1)]
            rw [hout1]
            by_cases h2 : lo ≤ ti
            · have hin2 : windowRow sid lo hi j = some ⟨ti, j.id, j.summary⟩ := by
                simp only [windowRow, hti]
                rw [if_pos ⟨hsid, h2, h4⟩]
              rw [hin2, List.countP_cons, ih]
              have : ¬m < ti := by omega
              simp [this]
            · have hout2 : windowRow sid lo hi j = none := by
                simp only [windowRow, hti]
                rw [if_neg (fun hc => h2 hc.2.1)]
              rw [hout2]
              exact ih
        · have hout1 : windowRow sid (m + 1) hi j = none := by
            simp only [windowRow, hti]
            rw [if_neg (fun hc => h4 hc.2.2)]
          have hout2 : windowRow sid lo hi j = none := by
            simp only [windowRow, hti]
            rw [if_neg (fun hc => h4 hc.2.2)]
          rw [hout1, hout2]
          exact ih
      · have hout1 : windowRow sid (m + 1) hi j = none := by
          simp only [windowRow, hti]
          rw [if_neg (fun hc => hsid hc.1)]
        have hout2 : windowRow sid lo hi j = none := by
          simp only [windowRow, hti]
          rw [if_neg (fun hc => hsid hc.1)]
        rw [hout1, hout2]
        exact ih

/-- Claim C3: with exactly CHAPTER_CHUNK (20) journal entries in the
summarizable window [progressEnd+1, currentTurnIndex − RECENT_BUFFER], one
rollup invocation appends exactly one chapter summary whose start_turn and
end_turn are the turn_index of the first and last of those entries (ordered
by turn_index then id); with CHAPTER_CHUNK − 1 such entries it inserts
nothing (the state is unchanged). -/
theorem C3_rollup_chunking :
    (∀ (db : Db) (sid : Nat) (cur : Int),
      windowCount db sid cur = CHAPTER_CHUNK →
      ∃ r w0 wn,
        chapterRows (maybeRollupSummaries db sid cur) sid
          = chapterRows db sid ++ [r]
        ∧ (journalWindow db sid (get_chapter_rollup_progress db sid + 1)
            (cur - 12)).head? = some w0
        ∧ (journalWindow db sid (get_chapter_rollup_progress db sid + 1)
            (cur - 12)).getLast? = some wn
        ∧ r.start_turn = w0.turn_index ∧ r.end_turn = wn.turn_index)
    ∧ (∀ (db : Db) (sid : Nat) (cur : Int),
        windowCount db sid cur = CHAPTER_CHUNK - 1 →
        maybeRollupSummaries db sid cur = db) := by
  constructor
  · intro db sid cur h20
    unfold windowCount CHAPTER_CHUNK at h20
    have hP := progress_ge_neg_one db sid
    cases hW : journalWindow db sid (get_chapter_rollup_progress db sid + 1)
        (cur - 12) with
    | nil =>
      rw [hW] at h20
      exact absurd h20 (by decide)
    | cons c0 crest =>
      rw [hW] at h20
      have hc0 := journalWindow_mem_bounds db sid _ _ c0
        (by rw [hW]; exact List.mem_cons_self c0 crest)
      have hmax : max (-1) (cur - 12) = cur - 12 := by omega
      have htake : (c0 :: crest).take 20 = c0 :: crest :=
        List.take_of_length_le (by omega)
      refine ⟨⟨db.nextSummaryId, sid, "chapter", c0.turn_index,
          (crest.getLastD c0).turn_index,
          orEmptyMark (pyTruncate (joinNl ((c0 :: crest).filterMap (fun r =>
            if pyStrip r.summary = "" then none else some (pyStrip r.summary)))) 1200)⟩,
        c0, crest.getLastD c0, ?_, ?_, ?_, rfl, rfl⟩
      · simp only [maybeRollupSummaries]
        rw [hmax, hW]
        rw [if_neg (by
          have := hc0.1
          have := hc0.2
          omega)]
        rw [if_neg (by rw [h20]; omega)]
        rw [htake]
        dsimp only
        by_cases hch : (list_chapter_summaries
            (insert_summary db sid "chapter" c0.turn_index
              (crest.getLastD c0).turn_index
              (orEmptyMark (pyTruncate (joinNl ((c0 :: crest).filterMap (fun r =>
                if pyStrip r.summary = "" then none else some (pyStrip r.summary)))) 1200)))
            sid 200).length < 3
        · rw [if_pos hch]
          rw [chapterRows_insert_chapter]
        · rw [if_neg hch]
          cases hchl : list_chapter_summaries
              (insert_summary db sid "chapter" c0.turn_index
                (crest.getLastD c0).turn_index
                (orEmptyMark (pyTruncate (joinNl ((c0 :: crest).filterMap (fun r =>
                  if pyStrip r.summary = "" then none else some (pyStrip r.summary)))) 1200)))
              sid 200 with
          | nil =>
            rw [chapterRows_insert_chapter]
          | cons ch0 chrest =>
            rw [chapterRows_insert_campaign, chapterRows_delete_campaign,
              chapterRows_insert_chapter]
      · rfl
      · exact getLast?_cons_getLastD c0 crest
  · intro db sid cur h19
    unfold windowCount CHAPTER_CHUNK at h19
    have hP := progress_ge_neg_one db sid
    simp only [maybeRollupSummaries]
    by_cases hcond : max (-1) (cur - 12) < get_chapter_rollup_progress db sid + 1
    · rw [if_pos hcond]
    · rw [if_neg hcond]
      have hmax : max (-1) (cur - 12) = cur - 12 := by omega
      rw [hmax]
      rw [if_pos (by rw [h19]; omega)]

/-- Witness for C3 at concrete states: twenty eligible entries produce one
chapter summary spanning their turn range; nineteen produce nothing. -/
theorem C3_rollup_chunking_witness :
    (∃ r w0 wn,
      chapterRows (maybeRollupSummaries cexDb20 1 31) 1
        = chapterRows cexDb20 1 ++ [r]
      ∧ (journalWindow cexDb20 1 (get_chapter_rollup_progress cexDb20 1 + 1)
          (31 - 12)).head? = some w0
      ∧ (journalWindow cexDb20 1 (get_chapter_rollup_progress cexDb20 1 + 1)
          (31 - 12)).getLast? = some wn
      ∧ r.start_turn = w0.turn_index ∧ r.end_turn = wn.turn_index)
    ∧ maybeRollupSummaries cexDb19 1 31 = cexDb19 := by
  constructor
  · exact C3_rollup_chunking.1 cexDb20 1 31 (by decide)
  · exact C3_rollup_chunking.2 cexDb19 1 31 (by decide)

theorem rollup_journal (db : Db) (sid : Nat) (cur : Int) :
    (maybeRollupSummaries db sid cur).journal = db.journal := by
  simp only [maybeRollupSummaries]
  split
  · rfl
  · split
    · rfl
    · split
      · rfl
      · split
        · rfl
        · split
          · rfl
          · rfl

theorem journalWindow_congr (db db2 : Db) (h : db2.journal = db.journal)
    (sid : Nat) (lo hi : Int) :
    journalWindow db2 sid lo hi = journalWindow db sid lo hi := by
  unfold journalWindow
  rw [h]

theorem rollup_big_branch (db : Db) (sid : Nat) (cur : Int)
    (c0 : WRow) (crest : List WRow)
    (hW : journalWindow db sid (get_chapter_rollup_progress db sid + 1)
      (cur - 12) = c0 :: crest)
    (hlen : ¬(c0 :: crest).length < 20)
    (hmax : max (-1) (cur - 12) = cur - 12)
    (hcond : ¬(cur - 12 < get_chapter_rollup_progress db sid + 1)) :
    ∃ txt, chapterRows (maybeRollupSummaries db sid cur) sid
      = chapterRows db sid
        ++ [⟨db.nextSummaryId, sid, "chapter", c0.turn_index,
            ((crest.take 19).getLastD c0).turn_index, txt⟩] := by
  have htake : (c0 :: crest).take 20 = c0 :: crest.take 19 := rfl
  refine ⟨orEmptyMark (pyTruncate (joinNl ((c0 :: crest.take 19).filterMap (fun r =>
    if pyStrip r.summary = "" then none else some (pyStrip r.summary)))) 1200), ?_⟩
  simp only [maybeRollupSummaries]
  rw [hmax, hW]
  rw [if_neg hcond]
  rw [if_neg hlen]
  rw [htake]
  dsimp only
  by_cases hch : (list_chapter_summaries
      (insert_summary db sid "chapter" c0.turn_index
        ((crest.take 19).getLastD c0).turn_index
        (orEmptyMark (pyTruncate (joinNl ((c0 :: crest.take 19).filterMap (fun r =>
          if pyStrip r.summary = "" then none else some (pyStrip r.summary)))) 1200)))
      sid 200).length < 3
  · rw [if_pos hch]
    rw [chapterRows_insert_chapter]
  · rw [if_neg hch]
    cases hchl : list_chapter_summaries
        (insert_summary db sid "chapter" c0.turn_index
          ((crest.take 19).getLastD c0).turn_index
          (orEmptyMark (pyTruncate (joinNl ((c0 :: crest.take 19).filterMap (fun r =>
            if pyStrip r.summary = "" then none else some (pyStrip r.summary)))) 1200)))
        sid 200 with
    | nil =>
      rw [chapterRows_insert_chapter]
    | cons ch0 chrest =>
      rw [chapterRows_insert_campaign, chapterRows_delete_campaign,
        chapterRows_insert_chapter]

theorem rollup_noop_of_small (db : Db) (sid : Nat) (cur : Int)
    (h : (journalWindow db sid (get_chapter_rollup_progress db sid + 1)
      (cur - 12)).length < 20) :
    maybeRollupSummaries db sid cur = db := by
  simp only [maybeRollupSummaries]
  by_cases hcond : max (-1) (cur - 12) < get_chapter_rollup_progress db sid + 1
  · rw [if_pos hcond]
  · rw [if_neg hcond]
    have hP := progress_ge_neg_one db sid
    have hmax : max (-1) (cur - 12) = cur - 12 := by omega
    rw [hmax]
    rw [if_pos h]

/-- Claim C5 as amended: running the rollup a second time with the same
current turn index and no new journal entries inserts no additional rows,
provided fewer than 2·CHAPTER_CHUNK (40) journal entries were eligible —
each invocation consumes at most one CHAPTER_CHUNK-sized chunk, so with a
backlog of 40 or more eligible entries a second run does insert another
chapter summary (see the counterexample). -/
theorem C5_rollup_idempotent_amended :
    ∀ (db : Db) (sid : Nat) (cur : Int),
      windowCount db sid cur < 2 * CHAPTER_CHUNK →
      maybeRollupSummaries (maybeRollupSummaries db sid cur) sid cur
        = maybeRollupSummaries db sid cur := by
  intro db sid cur hlt
  unfold windowCount CHAPTER_CHUNK at hlt
  have hP := progress_ge_neg_one db sid
  by_cases hcond : max (-1) (cur - 12) < get_chapter_rollup_progress db sid + 1
  · have h1 : maybeRollupSummaries db sid cur = db := by
      simp only [maybeRollupSummaries]
      rw [if_pos hcond]
    rw [h1]
    exact h1
  · have hmax : max (-1) (cur - 12) = cur - 12 := by omega
    have hcond2 : ¬(cur - 12 < get_chapter_rollup_progress db sid + 1) := by
      omega
    by_cases hsmall : (journalWindow db sid
        (get_chapter_rollup_progress db sid + 1) (cur - 12)).length < 20
    · have h1 := rollup_noop_of_small db sid cur hsmall
      rw [h1]
      exact h1
    · obtain ⟨c0, crest, hW⟩ : ∃ c0 crest,
          journalWindow db sid (get_chapter_rollup_progress db sid + 1)
            (cur - 12) = c0 :: crest := by
        cases hW : journalWindow db sid
            (get_chapter_rollup_progress db sid + 1) (cur - 12) with
        | nil =>
          rw [hW] at hsmall
          simp at hsmall
        | cons a b => exact ⟨a, b, rfl⟩
      rw [hW] at hsmall hlt
      obtain ⟨txt, hchap⟩ := rollup_big_branch db sid cur c0 crest hW hsmall
        hmax hcond2
      have hjournal : (maybeRollupSummaries db sid cur).journal = db.journal :=
        rollup_journal db sid cur
      have hmem_last : (crest.take 19).getLastD c0 ∈ c0 :: crest.take 19 :=
        List.mem_of_mem_getLast? (getLast?_cons_getLastD _ _)
      have hchunk_sub : (c0 :: crest.take 19).Sublist (c0 :: crest) :=
        (List.take_sublist 19 crest).cons₂ c0
      have hmem_lastW : (crest.take 19).getLastD c0 ∈ c0 :: crest :=
        hchunk_sub.subset hmem_last
      have hbounds := journalWindow_mem_bounds db sid
        (get_chapter_rollup_progress db sid + 1) (cur - 12)
        ((crest.take 19).getLastD c0) (by rw [hW]; exact hmem_lastW)
      have hprog2 : get_chapter_rollup_progress (maybeRollupSummaries db sid cur) sid
          = ((crest.take 19).getLastD c0).turn_index := by
        unfold get_chapter_rollup_progress
        rw [hchap, foldl_max_append_one]
        have hPfold : (chapterRows db sid).foldl (fun m r => max m r.end_turn) (-1)
            = get_chapter_rollup_progress db sid := rfl
        rw [hPfold]
        dsimp only
        have h1 := hbounds.1
        omega
      obtain ⟨db2, hdb2⟩ : ∃ d, maybeRollupSummaries db sid cur = d := ⟨_, rfl⟩
      rw [hdb2] at hjournal hprog2 ⊢
      simp only [maybeRollupSummaries]
      rw [hprog2, hmax]
      by_cases hstop : cur - 12 < ((crest.take 19).getLastD c0).turn_index + 1
      · rw [if_pos hstop]
      · rw [if_neg hstop]
        rw [journalWindow_congr db db2 hjournal]
        have hsorted : List.Sorted wle (c0 :: crest) := by
          have := journalWindow_sorted db sid
            (get_chapter_rollup_progress db sid + 1) (cur - 12)
          rw [hW] at this
          exact this
        have hsorted_chunk : List.Sorted wle (c0 :: crest.take 19) :=
          List.Pairwise.sublist hchunk_sub hsorted
        have hall : ∀ w ∈ c0 :: crest.take 19,
            w.turn_index ≤ ((crest.take 19).getLastD c0).turn_index :=
          sorted_mem_ti_le_getLastD c0 (crest.take 19) hsorted_chunk
        have hcount_ge : 20 ≤ List.countP
            (fun w => decide (w.turn_index ≤ ((crest.take 19).getLastD c0).turn_index))
            (c0 :: crest) := by
          have h1 := countP_take_all (c0 :: crest) 20
            (fun w => decide (w.turn_index ≤ ((crest.take 19).getLastD c0).turn_index))
            (by
              intro w hw
              rw [show (c0 :: crest).take 20 = c0 :: crest.take 19 from rfl] at hw
              exact decide_eq_true (hall w hw))
          have h2 : ((c0 :: crest).take 20).length = 20 := by
            rw [List.length_take]
            simp only [List.length_cons] at hsmall ⊢
            omega
          omega
        have hlen2 : (journalWindow db sid
            (((crest.take 19).getLastD c0).turn_index + 1) (cur - 12)).length < 20 := by
          have e1 : (journalWindow db sid
              (((crest.take 19).getLastD c0).turn_index + 1) (cur - 12)).length
              = (db.journal.filterMap (windowRow sid
                  (((crest.take 19).getLastD c0).turn_index + 1) (cur - 12))).length :=
            (journalWindow_perm db sid _ _).length_eq
          have e2 := filterMap_window_right db.journal sid
            (get_chapter_rollup_progress db sid + 1)
            ((crest.take 19).getLastD c0).turn_index (cur - 12)
            (by have := hbounds.1; omega)
          have e3 : List.countP
              (fun w => decide (((crest.take 19).getLastD c0).turn_index < w.turn_index))
              (db.journal.filterMap (windowRow sid
                (get_chapter_rollup_progress db sid + 1) (cur - 12)))
              = List.countP
                (fun w => decide (((crest.take 19).getLastD c0).turn_index < w.turn_index))
                (c0 :: crest) := by
            rw [← hW]
            exact ((journalWindow_perm db sid _ _).countP_eq _).symm
          have e4 := List.length_eq_countP_add_countP
            (fun w => decide (w.turn_index ≤ ((crest.take 19).getLastD c0).turn_index))
            (l := c0 :: crest)
          have e5 : List.countP
              (fun w => decide ¬((fun w => decide (w.turn_index ≤ ((crest.take 19).getLastD c0).turn_index)) w = true))
              (c0 :: crest)
              = List.countP
                (fun w => decide (((crest.take 19).getLastD c0).turn_index < w.turn_index))
                (c0 :: crest) := by
            apply List.countP_congr
            intro w _
            simp only [decide_eq_true_eq]
            by_cases hcase : w.turn_index ≤ ((crest.take 19).getLastD c0).turn_index
            · simp [hcase]
            · simp [hcase]
          rw [e1, e2, e3]
          rw [e5] at e4
          omega
        rw [if_pos hlen2]

/-- Claim C5 as stated is false on the code: with forty eligible journal
entries, the first rollup run inserts one chapter summary (consuming one
20-entry chunk) and a second run with the same turn index and no new journal
entries inserts another. -/
theorem C5_counterexample :
    (maybeRollupSummaries cexDb40 1 52).summaries.length = 1
    ∧ (maybeRollupSummaries (maybeRollupSummaries cexDb40 1 52) 1 52).summaries.length
      = 2 := by
  constructor
  · decide
  · decide

/-- Witness for C5's amended theorem at a concrete state with twenty
eligible entries. -/
theorem C5_rollup_idempotent_amended_witness :
    maybeRollupSummaries (maybeRollupSummaries cexDb20 1 31) 1 31
      = maybeRollupSummaries cexDb20 1 31 :=
  C5_rollup_idempotent_amended cexDb20 1 31 (by decide)

theorem foldl_max_ge_elem (l : List SummaryRow) (a : Int) :
    ∀ c ∈ l, c.end_turn ≤ l.foldl (fun m x => max m x.end_turn) a := by
  induction l generalizing a with
  | nil => simp
  | cons r t ih =>
    intro c hc
    simp only [List.foldl_cons]
    rcases List.mem_cons.mp hc with h | h
    · subst h
      have := foldl_max_le_init t (max a c.end_turn)
      omega
    · exact ih (max a r.end_turn) c h

theorem foldl_max_cases (l : List SummaryRow) (a : Int) :
    l.foldl (fun m x => max m x.end_turn) a = a
    ∨ ∃ c ∈ l, l.foldl (fun m x => max m x.end_turn) a = c.end_turn := by
  induction l generalizing a with
  | nil => left; rfl
  | cons r t ih =>
    simp only [List.foldl_cons]
    rcases ih (max a r.end_turn) with h | ⟨c, hc, h⟩
    · by_cases hra : r.end_turn ≤ a
      · left
        rw [h]
        omega
      · right
        exact ⟨r, by simp, by rw [h]; omega⟩
    · right
      exact ⟨c, by simp [hc], h⟩

theorem list_chapter_summaries_length (db : Db) (sid : Nat) (limit : Nat) :
    (list_chapter_summaries db sid limit).length
      = min limit (chapterRows db sid).length := by
  unfold list_chapter_summaries
  rw [List.length_take, (List.perm_insertionSort startLe _).length_eq]

theorem list_chapter_summaries_congr (d1 d2 : Db) (sid : Nat) (limit : Nat)
    (h : chapterRows d1 sid = chapterRows d2 sid) :
    list_chapter_summaries d1 sid limit = list_chapter_summaries d2 sid limit := by
  unfold list_chapter_summaries
  rw [h]

set_option maxHeartbeats 2000000 in
/-- Claim C6 as amended: whenever a rollup run inserts a chapter summary and
the session then has at least CAMPAIGN_REGEN_CHAPTERS (3) chapter summaries,
exactly one campaign-level row exists afterwards, spanning start_turn 0 to
the maximum end_turn over the chapter summaries visible to the regeneration
query — the first 200 ordered by start_turn (all of them when the session
has at most 200); every pre-existing campaign row is deleted before the
fresh one is inserted, so repeated regeneration replaces rather than
duplicates. -/
theorem C6_campaign_regen_amended :
    ∀ (db : Db) (sid : Nat) (cur : Int),
      (chapterRows (maybeRollupSummaries db sid cur) sid).length
        = (chapterRows db sid).length + 1 →
      CAMPAIGN_REGEN_CHAPTERS ≤ (chapterRows (maybeRollupSummaries db sid cur) sid).length →
      ∃ r, campaignRows (maybeRollupSummaries db sid cur) sid = [r]
        ∧ r.start_turn = 0
        ∧ r.end_turn ∈ (list_chapter_summaries (maybeRollupSummaries db sid cur) sid 200).map
            (fun c => c.end_turn)
        ∧ ∀ e ∈ (list_chapter_summaries (maybeRollupSummaries db sid cur) sid 200).map
            (fun c => c.end_turn), e ≤ r.end_turn := by
  intro db sid cur hchap h3
  unfold CAMPAIGN_REGEN_CHAPTERS at h3
  have hP := progress_ge_neg_one db sid
  by_cases hcond : max (-1) (cur - 12) < get_chapter_rollup_progress db sid + 1
  · exfalso
    have h1 : maybeRollupSummaries db sid cur = db := by
      simp only [maybeRollupSummaries]
      rw [if_pos hcond]
    rw [h1] at hchap
    omega
  · have hmax : max (-1) (cur - 12) = cur - 12 := by omega
    have hcond2 : ¬(cur - 12 < get_chapter_rollup_progress db sid + 1) := by
      omega
    by_cases hsmall : (journalWindow db sid
        (get_chapter_rollup_progress db sid + 1) (cur - 12)).length < 20
    · exfalso
      have h1 := rollup_noop_of_small db sid cur hsmall
      rw [h1] at hchap
      omega
    · obtain ⟨c0, crest, hW⟩ : ∃ c0 crest,
          journalWindow db sid (get_chapter_rollup_progress db sid + 1)
            (cur - 12) = c0 :: crest := by
        cases hW : journalWindow db sid
            (get_chapter_rollup_progress db sid + 1) (cur - 12) with
        | nil =>
          rw [hW] at hsmall
          simp at hsmall
        | cons a b => exact ⟨a, b, rfl⟩
      rw [hW] at hsmall
      obtain ⟨db1, hdb1⟩ : ∃ d,
          insert_summary db sid "chapter" c0.turn_index
            ((crest.take 19).getLastD c0).turn_index
            (orEmptyMark (pyTruncate (joinNl ((c0 :: crest.take 19).filterMap (fun r =>
              if pyStrip r.summary = "" then none else some (pyStrip r.summary)))) 1200))
            = d := ⟨_, rfl⟩
      have hchap1 : chapterRows db1 sid = chapterRows db sid
          ++ [⟨db.nextSummaryId, sid, "chapter", c0.turn_index,
              ((crest.take 19).getLastD c0).turn_index,
              orEmptyMark (pyTruncate (joinNl ((c0 :: crest.take 19).filterMap (fun r =>
                if pyStrip r.summary = "" then none else some (pyStrip r.summary)))) 1200)⟩] := by
        rw [← hdb1]
        exact chapterRows_insert_chapter db sid _ _ _
      have hrollup : maybeRollupSummaries db sid cur =
          (if (list_chapter_summaries db1 sid 200).length < 3 then db1
           else
             match list_chapter_summaries db1 sid 200 with
             | [] => db1
             | ch0 :: chrest =>
               insert_summary (delete_campaign_summaries db1 sid) sid "campaign" 0
                 (chrest.foldl (fun m c => max m c.end_turn) ch0.end_turn)
                 (orEmptyMark (pyTruncate (pyStrip (joinBlank
                   ((list_chapter_summaries db1 sid 200).map (fun c =>
                     "[" ++ toString c.start_turn ++ "-" ++ toString c.end_turn
                       ++ "]\n" ++ c.summary)))) 1500))) := by
        simp only [maybeRollupSummaries]
        rw [hmax, hW]
        rw [if_neg hcond2]
        rw [if_neg hsmall]
        rw [show (c0 :: crest).take 20 = c0 :: crest.take 19 from rfl]
        dsimp only
        rw [hdb1]
      rw [hrollup] at hchap h3 ⊢
      by_cases hch : (list_chapter_summaries db1 sid 200).length < 3
      · exfalso
        rw [if_pos hch] at h3
        rw [list_chapter_summaries_length] at hch
        omega
      · rw [if_neg hch] at h3 ⊢
        cases hcs : list_chapter_summaries db1 sid 200 with
        | nil =>
          exfalso
          rw [hcs] at hch
          simp at hch
        | cons ch0 chrest =>
          rw [hcs] at h3
          dsimp only at h3 ⊢
          have hchrows : chapterRows (insert_summary (delete_campaign_summaries db1 sid)
              sid "campaign" 0 (chrest.foldl (fun m c => max m c.end_turn) ch0.end_turn)
              (orEmptyMark (pyTruncate (pyStrip (joinBlank
                ((ch0 :: chrest).map (fun c =>
                  "[" ++ toString c.start_turn ++ "-" ++ toString c.end_turn
                    ++ "]\n" ++ c.summary)))) 1500))) sid = chapterRows db1 sid := by
            rw [chapterRows_insert_campaign, chapterRows_delete_campaign]
          have hcs2 : list_chapter_summaries (insert_summary (delete_campaign_summaries db1 sid)
              sid "campaign" 0 (chrest.foldl (fun m c => max m c.end_turn) ch0.end_turn)
              (orEmptyMark (pyTruncate (pyStrip (joinBlank
                ((ch0 :: chrest).map (fun c =>
                  "[" ++ toString c.start_turn ++ "-" ++ toString c.end_turn
                    ++ "]\n" ++ c.summary)))) 1500))) sid 200 = ch0 :: chrest := by
            rw [list_chapter_summaries_congr _ db1 sid 200 hchrows]
            exact hcs
          refine ⟨⟨(delete_campaign_summaries db1 sid).nextSummaryId, sid, "campaign", 0,
              chrest.foldl (fun m c => max m c.end_turn) ch0.end_turn,
              orEmptyMark (pyTruncate (pyStrip (joinBlank
                ((ch0 :: chrest).map (fun c =>
                  "[" ++ toString c.start_turn ++ "-" ++ toString c.end_turn
                    ++ "]\n" ++ c.summary)))) 1500)⟩, ?_, rfl, ?_, ?_⟩
          · rw [campaignRows_insert_campaign, campaignRows_delete_campaign]
            rfl
          · rw [hcs2]
            simp only [List.map_cons, List.mem_cons]
            rcases foldl_max_cases chrest ch0.end_turn with h | ⟨c, hc, h⟩
            · left
              exact h
            · right
              rw [h]
              exact List.mem_map.mpr ⟨c, hc, rfl⟩
          · rw [hcs2]
            intro e he
            simp only [List.map_cons, List.mem_cons] at he
            rcases he with he | he
            · subst he
              have := foldl_max_le_init chrest ch0.end_turn
              dsimp only
              omega
            · obtain ⟨c, hc, rfl⟩ := List.mem_map.mp he
              exact foldl_max_ge_elem chrest ch0.end_turn c hc

set_option maxRecDepth 100000 in
/-- Counterexample to claim C6 as stated: the regeneration query reads only
the first 200 chapter summaries ordered by start_turn (LIMIT 200), so with
201 chapter summaries the campaign row spans 0 to 199 even though a chapter
summary with end_turn 219 exists — not "the maximum end_turn over all
chapter summaries". -/
theorem C6_counterexample :
    (campaignRows (maybeRollupSummaries cexDb201 1 231) 1).map
        (fun r => (r.start_turn, r.end_turn)) = [((0 : Int), (199 : Int))]
    ∧ (219 : Int) ∈ (chapterRows (maybeRollupSummaries cexDb201 1 231) 1).map
        (fun c => c.end_turn) := by
  decide

/-- Witness for claim C6 as amended: on a session with two chapter summaries,
two stale campaign summaries and twenty fresh journal entries, the rollup at
current turn 71 inserts a third chapter summary and leaves exactly one
campaign row spanning 0 to the maximal chapter end_turn. -/
theorem C6_campaign_regen_amended_witness :
    ∃ r, campaignRows (maybeRollupSummaries cexDbC6 1 71) 1 = [r]
      ∧ r.start_turn = 0
      ∧ r.end_turn ∈ (list_chapter_summaries (maybeRollupSummaries cexDbC6 1 71) 1 200).map
          (fun c => c.end_turn)
      ∧ ∀ e ∈ (list_chapter_summaries (maybeRollupSummaries cexDbC6 1 71) 1 200).map
          (fun c => c.end_turn), e ≤ r.end_turn :=
  C6_campaign_regen_amended cexDbC6 1 71 (by decide) (by decide)
